import Mathlib

/-!
# Editor run controller (`src/pages/Editor.jsx`)

A shallow embedding of the execution orchestration found in the `Editor`
component: the output formatting done at the end of `runProject`, and the
asynchronous life cycle of a run (`runProject`, its `try / catch / finally`
and the reset scheduled with `setTimeout`); then saving (`saveProject`,
`handleSave`), the two `keydown` listeners with the closures they capture, the
tracked selection with `runSelectedCode`, the load of the project, and the
layout hooks.

JavaScript text is embedded as `String`; its characters are reached through
`String.data`.  React state setters are applied in program order, which is the
order in which React applies queued updates; functional updaters
(`setX(prev => ...)`) read the state left by the updates before them.
-/

namespace Editor

/-! ## Output formatting (`Editor.jsx`, lines 180-187) -/

/-- The `type` field of a formatted output line: `'error'` or `'output'`. -/
inductive LineType where
  | error
  | output
  deriving DecidableEq

/-- One element of `formattedOutput`: `{ line, content, type }`. -/
structure OutputLine where
  line : Nat
  content : String
  type : LineType
  deriving DecidableEq

/-- Scanner behind `String.prototype.split` for a one-character separator:
`cur` holds, reversed, the characters read since the last separator. -/
def splitGo (sep : Char) : List Char → List Char → List (List Char)
  | [], cur => [cur.reverse]
  | c :: cs, cur =>
    if c = sep then cur.reverse :: splitGo sep cs [] else splitGo sep cs (c :: cur)

/-- The call `text.split(sep)` for a one-character separator `sep`. -/
def jsSplit (sep : Char) (text : String) : List String :=
  (splitGo sep text.data []).map String.mk

/-- The call `xs.map((x, i) => f(x, i))`, the index starting at `i`. -/
def mapWithIndex {α β : Type} (f : α → Nat → β) : Nat → List α → List β
  | _, [] => []
  | i, x :: xs => f x i :: mapWithIndex f (i + 1) xs

/-- The callback of the `map` in `runProject`:
`(line, i) => ({ line: i + 1, content: line, type: code === 1 ? 'error' : 'output' })`.
`code` is `result.run.code`; it is `none` when the field holds no number. -/
def formatLine (code : Option Int) (line : String) (i : Nat) : OutputLine :=
  { line := i + 1
    content := line
    type := if code = some 1 then LineType.error else LineType.output }

/-- The value `formattedOutput` of `runProject`:
`result.run.output.split('\n').map((line, i) => ...)`. -/
def formattedOutput (output : String) (code : Option Int) : List OutputLine :=
  mapWithIndex (formatLine code) 0 (jsSplit '\n' output)

/-! ## State of the component -/

/-- The `project` object of a successful `getProject` response (held in `data`). -/
structure Project where
  name : String
  code : String
  projLanguage : String
  version : String
  deriving DecidableEq

/-- The `executionSteps` hook (lines 32-37). -/
structure ExecutionSteps where
  compiling : Bool
  running : Bool
  completed : Bool
  failed : Bool
  deriving DecidableEq

/-- The `loadingState` hook (lines 28-31). -/
structure LoadingState where
  status : String
  progress : Nat
  deriving DecidableEq

/-- The `output` hook: text (initially `""`) or the array built by `runProject`. -/
inductive Output where
  | text (s : String)
  | lines (ls : List OutputLine)
  deriving DecidableEq

/-- One element of `files` in the body sent to the execution service. -/
structure FileEntry where
  filename : Option String
  content : String
  deriving DecidableEq

/-- The JSON body posted to `https://emkc.org/api/v2/piston/execute`. -/
structure ExecuteRequest where
  language : String
  version : String
  files : List FileEntry
  deriving DecidableEq

/-- Which `toast` function was called. -/
inductive ToastKind where
  | error
  | success
  deriving DecidableEq

/-- A notification raised through `toast.error` or `toast.success`. -/
structure Toast where
  kind : ToastKind
  message : String
  deriving DecidableEq

/-- The values a function of the component closes over: the `code`, `data` and
`isFullScreen` of the render that created it. -/
structure Closure where
  code : String
  data : Option Project
  isFullScreen : Bool
  deriving DecidableEq

/-- Where an invocation of the async function `runProject` is suspended. -/
inductive Pc where
  | awaitDelay
  | awaitFetch
  | awaitJson
  | done
  deriving DecidableEq

/-- One invocation of `runProject`, with the values its closure captured. -/
structure RunTask where
  pc : Pc
  code : String
  data : Option Project
  deriving DecidableEq

/-- The `run` member of a parsed response.  `code` is `none` when the field
is missing or not a number, `output` is `none` when the field is missing or
not a string (the only values on which `.split` exists). -/
structure RunResult where
  code : Option Int
  output : Option String
  deriving DecidableEq

/-- The parsed response body `result`; `run` is `none` when `result.run`
cannot be read or is `undefined` / `null`. -/
structure ExecResult where
  run : Option RunResult
  deriving DecidableEq

/-- How an awaited promise settles: rejected with an error carrying `message`,
or fulfilled with a value. -/
inductive Settled (α : Type) where
  | rejected (message : String)
  | fulfilled (value : α)
  deriving DecidableEq

/-- A `keydown` event, as far as the listeners read it. -/
structure KeyEvent where
  ctrlKey : Bool
  key : String
  deriving DecidableEq

/-- The JSON body posted to `/saveProject` (lines 88-92). -/
structure SaveRequest where
  token : Option String
  projectId : String
  code : String
  deriving DecidableEq

/-- The parsed body of a `/saveProject` response: whether `success` is truthy,
and `msg` when the field is there. -/
structure SaveResponse where
  success : Bool
  msg : Option String
  deriving DecidableEq

/-- The parsed body of a `/getProject` response: whether `success` is truthy,
`project` when the field holds an object, and `msg` when the field is there. -/
structure LoadResponse where
  success : Bool
  project : Option Project
  msg : Option String
  deriving DecidableEq

/-- The caller of `saveProject()`, which decides what becomes of the promise it
returns: `handleSave` awaits it inside `try / catch / finally` (lines
103-113), `handleSaveShortcut` drops it (line 119). -/
inductive SaveCaller where
  | handleSave
  | handleSaveShortcut
  deriving DecidableEq

/-- One call of `saveProject()`; `pending` until its promise settles. -/
structure SaveTask where
  caller : SaveCaller
  pending : Bool
  deriving DecidableEq

/-- The hooks of `Editor` that the run controller reads or writes, followed by
the pending work the browser holds for it: suspended invocations of
`runProject`, scheduled reset timeouts (their delay in milliseconds, oldest
first), the execute requests sent so far and the notifications raised so far.
`keyHandler` is the closure of the `handleKeyPress` listener registered by the
effect with dependency list `[isFullScreen]` (lines 258-273).

For saving and selecting: the hooks `selectedCode` and `isSaving`; `token`, the
item `localStorage.getItem('token')`, and `projectId`, the route parameter
`id`; `saveHandler`, the closure of the `handleSaveShortcut` listener
registered by the effect with dependency list `[code]` (lines 124-129);
`saveListenerFirst`, whether that listener was registered before
`handleKeyPress` (listeners run in the order of their registration); the calls
of `saveProject()` and the save requests sent so far. -/
structure EditorState where
  code : String
  output : Output
  error : Bool
  data : Option Project
  isRunning : Bool
  isFullScreen : Bool
  loadingState : LoadingState
  executionSteps : ExecutionSteps
  keyHandler : Closure
  tasks : List RunTask
  timers : List Nat
  requests : List ExecuteRequest
  toasts : List Toast
  selectedCode : String
  isSaving : Bool
  token : Option String
  projectId : String
  saveHandler : Closure
  saveListenerFirst : Bool
  saves : List SaveTask
  saveRequests : List SaveRequest
  deriving DecidableEq

/-- All four flags false: the idle phase. -/
def idleSteps : ExecutionSteps :=
  { compiling := false, running := false, completed := false, failed := false }

/-- The state after the first render: the initial values of the hooks. -/
def init : EditorState :=
  { code := ""
    output := Output.text ""
    error := false
    data := none
    isRunning := false
    isFullScreen := false
    loadingState := { status := "", progress := 0 }
    executionSteps := idleSteps
    keyHandler := { code := "", data := none, isFullScreen := false }
    tasks := []
    timers := []
    requests := []
    toasts := []
    selectedCode := ""
    isSaving := false
    token := none
    projectId := ""
    saveHandler := { code := "", data := none, isFullScreen := false }
    saveListenerFirst := true
    saves := []
    saveRequests := [] }

/-- Delay of the reset scheduled in `finally`, `setTimeout(..., 2000)`. -/
def resetDelayMs : Nat := 2000

/-- Message of the `TypeError` raised by reading a property of `null` or
`undefined`.  The wording belongs to the engine; no modelled code inspects it. -/
def typeErrorMessage : String := "Cannot read properties of undefined"

/-- The closure of a function created by the current render. -/
def currentClosure (s : EditorState) : Closure :=
  { code := s.code, data := s.data, isFullScreen := s.isFullScreen }

/-- Sets the program counter of the invocation numbered `i`. -/
def setPc (i : Nat) (pc : Pc) (s : EditorState) : EditorState :=
  { s with tasks := s.tasks.modify (fun t => { t with pc := pc }) i }

/-! ## `runProject` (lines 131-207)

The async function is cut at its three `await`s.  `runProject` is the part run
by the call itself; `afterDelay`, `afterFetch` and `afterJson` are the parts
run when the awaited promise settles. -/

/-- The callback of the reset timeout (lines 197-205). -/
def resetCallback (s : EditorState) : EditorState :=
  { s with
    executionSteps :=
      { compiling := false, running := false, completed := false, failed := false }
    loadingState := { status := "", progress := 0 } }

/-- The `catch (err)` block (lines 189-194); `message` is `err.message`. -/
def catchBlock (message : String) (s : EditorState) : EditorState :=
  { s with
    executionSteps := { s.executionSteps with running := false, failed := true }
    error := true
    toasts := s.toasts ++
      [{ kind := ToastKind.error
         message := "Execution failed: " ++ (if message = "" then "Unknown error" else message) }] }

/-- The `finally` block (lines 195-206) of invocation `i`, which then ends. -/
def finallyBlock (i : Nat) (s : EditorState) : EditorState :=
  setPc i Pc.done { s with isRunning := false, timers := s.timers ++ [resetDelayMs] }

/-- The call `runProject()` up to the first `await` (lines 132-143), made by a
function whose closure is `cl`. -/
def runProject (cl : Closure) (s : EditorState) : EditorState :=
  { s with
    isRunning := true
    executionSteps :=
      { compiling := true, running := false, completed := false, failed := false }
    loadingState := { status := "Compiling code...", progress := 25 }
    tasks := s.tasks ++ [{ pc := Pc.awaitDelay, code := cl.code, data := cl.data }] }

/-- The body built for `fetch` (lines 151-158) from the captured project
`d` and the captured `code`. -/
def executeBody (d : Project) (code : String) : ExecuteRequest :=
  { language := d.projLanguage
    version := d.version
    files := [{ filename := some ("main." ++ d.projLanguage), content := code }] }

/-- Lines 145-159, run when the 500 ms promise resolves.  Reading
`data.projLanguage` throws when the captured `data` is `null`. -/
def afterDelay (i : Nat) (t : RunTask) (s : EditorState) : EditorState :=
  let s1 : EditorState :=
    { s with
      executionSteps := { s.executionSteps with compiling := false, running := true }
      loadingState := { status := "Executing program...", progress := 50 } }
  match t.data with
  | none => finallyBlock i (catchBlock typeErrorMessage s1)
  | some d =>
    setPc i Pc.awaitFetch { s1 with requests := s1.requests ++ [executeBody d t.code] }

/-- Lines 161-162, run when the promise of `fetch` settles. -/
def afterFetch (i : Nat) (r : Settled Unit) (s : EditorState) : EditorState :=
  match r with
  | Settled.rejected message => finallyBlock i (catchBlock message s)
  | Settled.fulfilled _ =>
    setPc i Pc.awaitJson
      { s with loadingState := { status := "Processing output...", progress := 75 } }

/-- The `if` of lines 164-178 on `result.run.code`. -/
def reportExit (code : Option Int) (s : EditorState) : EditorState :=
  if code = some 1 then
    { s with
      executionSteps := { s.executionSteps with running := false, failed := true }
      error := true
      toasts := s.toasts ++ [{ kind := ToastKind.error, message := "Execution failed!" }] }
  else
    { s with
      executionSteps := { s.executionSteps with running := false, completed := true }
      loadingState := { status := "Completed successfully", progress := 100 }
      toasts := s.toasts ++
        [{ kind := ToastKind.success, message := "Code executed successfully!" }] }

/-- Lines 164-187, run when the promise of `response.json()` settles.
Reading `result.run.code` throws when `result.run` is missing; calling
`result.run.output.split` throws, after the `if`, when `output` is no string. -/
def afterJson (i : Nat) (r : Settled ExecResult) (s : EditorState) : EditorState :=
  match r with
  | Settled.rejected message => finallyBlock i (catchBlock message s)
  | Settled.fulfilled result =>
    match result.run with
    | none => finallyBlock i (catchBlock typeErrorMessage s)
    | some run =>
      let s1 := reportExit run.code s
      match run.output with
      | none => finallyBlock i (catchBlock typeErrorMessage s1)
      | some output =>
        finallyBlock i { s1 with output := Output.lines (formattedOutput output run.code) }

/-! ## Saving (lines 77-129) -/

/-- The characters `String.prototype.trim` removes: the white space and line
terminator code points of ECMAScript. -/
def isJsWhiteSpace (c : Char) : Bool :=
  c.toNat = 0x09 || c.toNat = 0x0A || c.toNat = 0x0B || c.toNat = 0x0C || c.toNat = 0x0D ||
  c.toNat = 0x20 || c.toNat = 0xA0 || c.toNat = 0x1680 ||
  (0x2000 ≤ c.toNat && c.toNat ≤ 0x200A) ||
  c.toNat = 0x2028 || c.toNat = 0x2029 || c.toNat = 0x202F || c.toNat = 0x205F ||
  c.toNat = 0x3000 || c.toNat = 0xFEFF

/-- The call `text.trim()`. -/
def jsTrim (text : String) : String :=
  String.mk ((text.data.dropWhile isJsWhiteSpace).reverse.dropWhile isJsWhiteSpace).reverse

/-- The body built by `saveProject` (lines 79, 88-92) from the captured `code`. -/
def saveBody (code : String) (s : EditorState) : SaveRequest :=
  { token := s.token, projectId := s.projectId, code := jsTrim code }

/-- The call `saveProject()` (lines 78-101) made by `caller`, a function whose
closure is `cl`: the request is sent and the promise is pending. -/
def saveProject (cl : Closure) (caller : SaveCaller) (s : EditorState) : EditorState :=
  { s with
    saveRequests := s.saveRequests ++ [saveBody cl.code s]
    saves := s.saves ++ [{ caller := caller, pending := true }] }

/-- The call `handleSave()` up to its `await` (lines 104-106). -/
def handleSave (cl : Closure) (s : EditorState) : EditorState :=
  saveProject cl SaveCaller.handleSave { s with isSaving := true }

/-- How the promise returned by `saveProject()` settles (lines 94-100), given
how the request ended: `none` when it is fulfilled, the message of the error
when it is rejected.  A rejected `fetch` or `res.json()` passes its error on;
a body whose `success` is falsy gives `new Error(data.msg)`. -/
def saveError : Settled SaveResponse → Option String
  | Settled.rejected message => some message
  | Settled.fulfilled response => if response.success then none else some (response.msg.getD "")

/-- What runs when the promise of the call numbered `i` settles: for a call by
`handleSave` the rest of its `try / catch / finally` (lines 107-112); for a
call by `handleSaveShortcut` nothing, the promise having been dropped. -/
def afterSave (i : Nat) (t : SaveTask) (r : Settled SaveResponse) (s : EditorState) :
    EditorState :=
  let s1 : EditorState :=
    { s with saves := s.saves.modify (fun t => { t with pending := false }) i }
  match t.caller with
  | SaveCaller.handleSaveShortcut => s1
  | SaveCaller.handleSave =>
    match saveError r with
    | none =>
      { s1 with
        toasts := s1.toasts ++
          [{ kind := ToastKind.success, message := "Project saved successfully!" }]
        isSaving := false }
    | some message =>
      { s1 with
        toasts := s1.toasts ++
          [{ kind := ToastKind.error
             message := if message = "" then "Failed to save code" else message }]
        isSaving := false }

/-- The number of save requests awaiting their response. -/
def savesInFlight (s : EditorState) : Nat :=
  (s.saves.filter (fun t => t.pending)).length

/-! ## Keyboard shortcuts (lines 115-129 and 257-273)

A listener returns whether it called `e.preventDefault()` and the state it
leaves. -/

/-- The listener `handleSaveShortcut` (lines 116-121). -/
def handleSaveShortcut (e : KeyEvent) (s : EditorState) : Bool × EditorState :=
  if e.ctrlKey && e.key == "s" then
    (true, saveProject s.saveHandler SaveCaller.handleSaveShortcut s)
  else (false, s)

/-- The listener `handleKeyPress` (lines 259-270). -/
def handleKeyPress (e : KeyEvent) (s : EditorState) : Bool × EditorState :=
  if e.ctrlKey && e.key == "s" then (true, handleSave s.keyHandler s)
  else if e.ctrlKey && e.key == "b" then (true, runProject s.keyHandler s)
  else if e.ctrlKey && e.key == "f" then
    (true, { s with isFullScreen := !s.keyHandler.isFullScreen })
  else (false, s)

/-- Both `keydown` listeners of `window`, in the order of their registration. -/
def keydownListeners (e : KeyEvent) (s : EditorState) : EditorState :=
  if s.saveListenerFirst then (handleKeyPress e (handleSaveShortcut e s).2).2
  else (handleSaveShortcut e (handleKeyPress e s).2).2

/-- The effect with dependency list `[isFullScreen]` (lines 258-273), run after
the render that follows a state `before`: when the flag has changed,
`handleKeyPress` is removed and registered again from the current render. -/
def refreshKeyHandler (before s : EditorState) : EditorState :=
  if s.isFullScreen = before.isFullScreen then s
  else { s with keyHandler := currentClosure s, saveListenerFirst := true }

/-- The effect with dependency list `[code]` (lines 124-129), run after the
render that follows a state `before`: when the text has changed,
`handleSaveShortcut` is removed and registered again from the current render. -/
def refreshSaveHandler (before s : EditorState) : EditorState :=
  if s.code = before.code then s
  else { s with saveHandler := currentClosure s, saveListenerFirst := false }

/-! ## Selection (lines 209-255) -/

/-- The listener given to `onDidChangeCursorSelection` (lines 213-218);
`selection` is the text of the selected range. -/
def onSelection (selection : String) (s : EditorState) : EditorState :=
  if selection = "" then s else { s with selectedCode := selection }

/-- The default of `codeToRun` (line 222). -/
def defaultSnippet : String := "print('Hello World')"

/-- The operator `a || b` on a text `a`: the empty text is falsy. -/
def orText (a b : String) : String :=
  if a = "" then b else a

/-- The body built by `runSelectedCode` (lines 222, 232-238) from the captured
`selectedCode` and `data`. -/
def selectionBody (selectedCode : String) (data : Option Project) : ExecuteRequest :=
  { language :=
      match data with
      | none => "python"
      | some d => orText d.projLanguage "python"
    version :=
      match data with
      | none => "3.9.0"
      | some d => orText d.version "3.9.0"
    files := [{ filename := none, content := orText selectedCode defaultSnippet }] }

/-- The call `runSelectedCode()` up to its `fetch` (lines 222-239), by a
function that captured `selectedCode` and `data`. -/
def runSelectedCode (selectedCode : String) (data : Option Project) (s : EditorState) :
    EditorState :=
  { s with
    isRunning := true
    output := Output.text ""
    error := false
    requests := s.requests ++ [selectionBody selectedCode data] }

/-- What runs when the request of `runSelectedCode` ends (lines 240-254):
`r` is rejected when `fetch` or `res.json()` rejects.  Reading
`data.run.output` throws when the body has no `run`; the `catch` then runs,
as it does after a rejection; `finally` clears `isRunning`.  An `output` that
is missing or empty is shown as `No output`; an `output` that is neither a
text nor falsy is not followed. -/
def afterSelectionRun (r : Settled ExecResult) (s : EditorState) : EditorState :=
  let caught : EditorState :=
    { s with
      toasts := s.toasts ++ [{ kind := ToastKind.error, message := "Failed to run code" }]
      error := true
      isRunning := false }
  match r with
  | Settled.rejected _ => caught
  | Settled.fulfilled result =>
    match result.run with
    | none => caught
    | some run =>
      { s with
        output := Output.text (orText (run.output.getD "") "No output")
        error := decide (run.code = some 1)
        toasts :=
          if run.code = some 1 then
            s.toasts ++ [{ kind := ToastKind.error, message := "Execution failed" }]
          else s.toasts
        isRunning := false }

/-! ## Loading (lines 49-75) -/

/-- The `catch` of the load (lines 71-74). -/
def loadCatch (s : EditorState) : EditorState :=
  { s with
    toasts := s.toasts ++ [{ kind := ToastKind.error, message := "Failed to load project." }] }

/-- What runs when the request of the load effect ends (lines 62-74): `r` is
rejected when `fetch` or `res.json()` rejects.  With a truthy `success` the
buffer and `data` are set from `data.project`, and reading `data.project.code`
throws into the `catch` when there is no project; otherwise the message of the
backend is shown. -/
def afterLoad (r : Settled LoadResponse) (s : EditorState) : EditorState :=
  match r with
  | Settled.rejected _ => loadCatch s
  | Settled.fulfilled response =>
    if response.success then
      match response.project with
      | some p => { s with code := p.code, data := some p }
      | none => loadCatch s
    else
      { s with
        toasts := s.toasts ++
          [{ kind := ToastKind.error, message := response.msg.getD "" }] }

/-! ## Layout (lines 38-47, 307, 411-438, 523-555)

The hooks `isMobile` and `mobileView` are read and written by no function of
the run or save controller; they are followed on their own. -/

/-- The hooks `isMobile` and `mobileView`. -/
structure ViewState where
  isMobile : Bool
  mobileView : String
  deriving DecidableEq

/-- The value `window.innerWidth < 768` (lines 39 and 43). -/
def belowBreakpoint (innerWidth : Nat) : Bool :=
  decide (innerWidth < 768)

/-- The hooks after the first render in a window `innerWidth` wide. -/
def viewInit (innerWidth : Nat) : ViewState :=
  { isMobile := belowBreakpoint innerWidth, mobileView := "editor" }

/-- What changes the layout hooks. -/
inductive ViewEvent where
  /-- A `resize` of the window, seen by `handleResize` (lines 42-44). -/
  | resize (innerWidth : Nat)
  /-- The header button of line 307: `prev === 'editor' ? 'output' : 'editor'`. -/
  | toggleView
  /-- The navigation button `setMobileView('editor')`. -/
  | showEditor
  /-- The navigation button `setMobileView('output')`. -/
  | showOutput
  deriving DecidableEq

/-- The effect of one layout event. -/
def viewStep (v : ViewState) : ViewEvent → ViewState
  | ViewEvent.resize innerWidth => { v with isMobile := belowBreakpoint innerWidth }
  | ViewEvent.toggleView =>
    { v with mobileView := if v.mobileView = "editor" then "output" else "editor" }
  | ViewEvent.showEditor => { v with mobileView := "editor" }
  | ViewEvent.showOutput => { v with mobileView := "output" }

/-- The layout hooks after a sequence of events, oldest first. -/
def viewRun (v : ViewState) (events : List ViewEvent) : ViewState :=
  events.foldl viewStep v

/-- The width of the window after a sequence of events that began at width
`innerWidth`: the width of the last `resize`. -/
def widthAfter (innerWidth : Nat) : List ViewEvent → Nat
  | [] => innerWidth
  | ViewEvent.resize w :: rest => widthAfter w rest
  | _ :: rest => widthAfter innerWidth rest

/-- The display class of the editor panel (line 412). -/
def editorPanelClass (v : ViewState) : String :=
  if v.isMobile then (if v.mobileView = "editor" then "flex" else "hidden") else "flex"

/-- The display class of the output panel (line 434). -/
def outputPanelClass (v : ViewState) : String :=
  if v.isMobile then (if v.mobileView = "output" then "flex" else "hidden") else "flex"

/-! ## Events -/

/-- What the user, the network and the timer queue can do to the component. -/
inductive Event where
  /-- The `getProject` response reports success (lines 63-66). -/
  | projectLoaded (p : Project)
  /-- The editing widget reports new text (`onChange`). -/
  | editorChange (newCode : Option String)
  /-- A click on one of the Run buttons, which carry `disabled={isRunning}`. -/
  | clickRun
  /-- A `keydown` with `ctrlKey` and key `b`, seen by `handleKeyPress`. -/
  | keyCtrlB
  /-- A `keydown` with `ctrlKey` and key `f`, seen by `handleKeyPress`. -/
  | keyCtrlF
  /-- The 500 ms promise of invocation `i` resolves. -/
  | delayElapsed (i : Nat)
  /-- The promise of `fetch` of invocation `i` settles. -/
  | fetchSettled (i : Nat) (r : Settled Unit)
  /-- The promise of `response.json()` of invocation `i` settles. -/
  | jsonSettled (i : Nat) (r : Settled ExecResult)
  /-- The oldest scheduled reset timeout fires. -/
  | resetTimerFires
  /-- The editing widget reports a change of the selection, whose text is
  `selection`. -/
  | selectionChanged (selection : String)
  /-- A `keydown` on `window`, seen by both listeners. -/
  | keydown (e : KeyEvent)
  /-- A click on one of the Save buttons (`onClick={handleSave}`). -/
  | clickSave
  /-- The request of the call of `saveProject()` numbered `i` ends: `fetch` or
  `res.json()` rejects, or the body is parsed. -/
  | saveSettled (i : Nat) (r : Settled SaveResponse)
  /-- The request of the load effect ends: `fetch` or `res.json()` rejects, or
  the body is parsed. -/
  | loadSettled (r : Settled LoadResponse)
  deriving DecidableEq

/-- Resumes invocation `i` with `k` when it is suspended at `pc`; otherwise the
event has nothing to resume and the state is unchanged. -/
def resume (i : Nat) (pc : Pc) (k : RunTask → EditorState → EditorState)
    (s : EditorState) : EditorState :=
  match s.tasks.get? i with
  | some t => if t.pc = pc then k t s else s
  | none => s

/-- The effect of one event. -/
def step (s : EditorState) : Event → EditorState
  | Event.projectLoaded p => refreshSaveHandler s { s with code := p.code, data := some p }
  | Event.editorChange newCode => refreshSaveHandler s { s with code := newCode.getD "" }
  | Event.clickRun => if s.isRunning then s else runProject (currentClosure s) s
  | Event.keyCtrlB => runProject s.keyHandler s
  | Event.keyCtrlF => refreshKeyHandler s { s with isFullScreen := !s.keyHandler.isFullScreen }
  | Event.delayElapsed i => resume i Pc.awaitDelay (afterDelay i) s
  | Event.fetchSettled i r => resume i Pc.awaitFetch (fun _ => afterFetch i r) s
  | Event.jsonSettled i r => resume i Pc.awaitJson (fun _ => afterJson i r) s
  | Event.resetTimerFires =>
    match s.timers with
    | [] => s
    | _ :: rest => resetCallback { s with timers := rest }
  | Event.selectionChanged selection => onSelection selection s
  | Event.keydown e => refreshKeyHandler s (keydownListeners e s)
  | Event.clickSave => handleSave (currentClosure s) s
  | Event.saveSettled i r =>
    match s.saves.get? i with
    | some t => if t.pending then afterSave i t r s else s
    | none => s
  | Event.loadSettled r => refreshSaveHandler s (afterLoad r s)

/-- The state after a sequence of events, oldest first. -/
def run (s : EditorState) (events : List Event) : EditorState :=
  events.foldl step s

/-- The states the component can be in: those some sequence of events leads to
from the first render. -/
def Reachable (s : EditorState) : Prop :=
  ∃ events, s = run init events

/-- The number of execute requests awaiting their response. -/
def inFlight (s : EditorState) : Nat :=
  (s.tasks.filter (fun t => decide (t.pc = Pc.awaitFetch))).length

/-- The program counter of invocation `i`, when there is one. -/
def pcOf (s : EditorState) (i : Nat) : Option Pc :=
  (s.tasks.get? i).map (fun t => t.pc)

/-- The events that reach the run controller: they start, resume or reset a
run. -/
def touchesRun : Event → Bool
  | Event.clickRun => true
  | Event.keyCtrlB => true
  | Event.delayElapsed _ => true
  | Event.fetchSettled _ _ => true
  | Event.jsonSettled _ _ => true
  | Event.resetTimerFires => true
  | Event.keydown e => e.ctrlKey && e.key == "b"
  | _ => false

/-- Two states that agree on what the run controller holds: the invocations,
the reset timeouts, `isRunning` and `executionSteps`. -/
def SameRun (a b : EditorState) : Prop :=
  a.tasks = b.tasks ∧ a.timers = b.timers ∧ a.isRunning = b.isRunning ∧
    a.executionSteps = b.executionSteps

/-! ## One run, undisturbed -/

/-- The events that carry invocation `i` from its first `await` to its end
when nothing else happens in between: the delay elapses, `fetch` settles with
`fetch`, `response.json()` settles with `json`.  An event that finds the
invocation already ended (after a rejection or a thrown error) changes nothing. -/
def soloEvents (i : Nat) (fetch : Settled Unit) (json : Settled ExecResult) : List Event :=
  [Event.delayElapsed i, Event.fetchSettled i fetch, Event.jsonSettled i json]

/-- One call of `runProject` from state `s` by a function with closure `cl`,
followed to its end. -/
def soloRun (cl : Closure) (fetch : Settled Unit) (json : Settled ExecResult)
    (s : EditorState) : EditorState :=
  run (runProject cl s) (soloEvents s.tasks.length fetch json)

/-- A response body of the documented shape `{ run: { code, output } }`. -/
def wellFormed (code : Int) (output : String) : Settled ExecResult :=
  Settled.fulfilled { run := some { code := some code, output := some output } }

/-- A loaded project, for the concrete runs below. -/
def sampleProject : Project :=
  { name := "demo", code := "print(1)", projLanguage := "python", version := "3.10.0" }

/-- The first render followed by a successful load of `sampleProject`. -/
def loaded : EditorState :=
  step init (Event.projectLoaded sampleProject)

/-- The output text and the exit code a run gets hold of: `none` when the
captured `data` is `null`, when `fetch` or `response.json()` rejects, and when
the body has no `run` or no text `output`. -/
def receivedOutput (cl : Closure) (fetch : Settled Unit) (json : Settled ExecResult) :
    Option (String × Option Int) :=
  match cl.data, fetch, json with
  | some _, Settled.fulfilled _,
      Settled.fulfilled { run := some { code := code, output := some output } } =>
    some (output, code)
  | _, _, _ => none

/-- What the two effects keep true between events: the flag captured by
`handleKeyPress` is the current `isFullScreen`, and the text captured by
`handleSaveShortcut` is the current `code`. -/
def Synced (s : EditorState) : Prop :=
  s.keyHandler.isFullScreen = s.isFullScreen ∧ s.saveHandler.code = s.code

/-- A key event with the Ctrl key held. -/
def withCtrl (key : String) : KeyEvent :=
  { ctrlKey := true, key := key }

/-- The events that write the buffer: a change reported by the editing
widget and a load answered with a truthy `success` and a project. -/
def changesBuffer : Event → Bool
  | Event.editorChange _ => true
  | Event.projectLoaded _ => true
  | Event.loadSettled (Settled.fulfilled { success := true, project := some _, msg := _ }) => true
  | _ => false

/-! ## Sessions without the shortcut -/

/-- The program counters of the invocations that have not ended, oldest first. -/
def activePcs : List RunTask → List Pc
  | [] => []
  | t :: ts => if t.pc = Pc.done then activePcs ts else t.pc :: activePcs ts

/-- The number of flags of `executionSteps` that are true. -/
def flagCount (f : ExecutionSteps) : Nat :=
  f.compiling.toNat + f.running.toNat + f.completed.toNat + f.failed.toNat

/-- A response on which the `if` of lines 164-178 takes its `else` branch and
`result.run.output` is then found to be no string. -/
def completesWithoutOutput : Settled ExecResult → Bool
  | Settled.fulfilled { run := some { code := code, output := none } } => decide (code ≠ some 1)
  | _ => false

/-- The events of a session in which runs are started by the Run buttons only
and no response completes without an output. -/
def plainEvent : Event → Bool
  | Event.keyCtrlB => false
  | Event.keydown e => !(e.ctrlKey && e.key == "b")
  | Event.jsonSettled _ r => !completesWithoutOutput r
  | _ => true

/-- The flags that fit an invocation suspended at `pc` (`none`: no invocation
is suspended), a reset having possibly fired since they were set. -/
def Fits : Option Pc → ExecutionSteps → Prop
  | none, f =>
    f = idleSteps ∨
    f = { compiling := false, running := false, completed := true, failed := false } ∨
    f = { compiling := false, running := false, completed := false, failed := true }
  | some Pc.awaitDelay, f =>
    f = idleSteps ∨
    f = { compiling := true, running := false, completed := false, failed := false }
  | some Pc.awaitFetch, f =>
    f = idleSteps ∨
    f = { compiling := false, running := true, completed := false, failed := false }
  | some Pc.awaitJson, f =>
    f = idleSteps ∨
    f = { compiling := false, running := true, completed := false, failed := false }
  | some Pc.done, _ => False

/-- The invariant of sessions made of plain events: at most one invocation has
not ended, `isRunning` is true while one has not, and the flags fit it. -/
def OneRun (s : EditorState) : Prop :=
  (activePcs s.tasks = [] ∧ Fits none s.executionSteps) ∨
  (∃ p, activePcs s.tasks = [p] ∧ s.isRunning = true ∧ Fits (some p) s.executionSteps)

/-! ## Lemmas on splitting and numbering -/

theorem splitGo_ne_nil (sep : Char) (cs cur : List Char) : splitGo sep cs cur ≠ [] := by
  induction cs generalizing cur with
  | nil => simp [splitGo]
  | cons c cs ih =>
    unfold splitGo
    split
    · simp
    · exact ih _

theorem intercalate_cons_of_ne_nil {α : Type} (sep x : List α) (xs : List (List α)) (h : xs ≠ []) :
    sep.intercalate (x :: xs) = x ++ sep ++ sep.intercalate xs := by
  cases xs with
  | nil => exact absurd rfl h
  | cons y ys => simp [List.intercalate, List.intersperse]

theorem intercalate_splitGo (sep : Char) (cs cur : List Char) :
    [sep].intercalate (splitGo sep cs cur) = cur.reverse ++ cs := by
  induction cs generalizing cur with
  | nil => simp [splitGo, List.intercalate]
  | cons c cs ih =>
    unfold splitGo
    split
    · next h =>
      rw [intercalate_cons_of_ne_nil _ _ _ (splitGo_ne_nil sep cs []), ih]
      simp [h]
    · rw [ih]; simp

theorem not_mem_splitGo (sep : Char) (cs cur : List Char) (hcur : sep ∉ cur) :
    ∀ seg ∈ splitGo sep cs cur, sep ∉ seg := by
  induction cs generalizing cur with
  | nil => simpa [splitGo] using hcur
  | cons c cs ih =>
    unfold splitGo
    split
    · intro seg hseg
      rcases List.mem_cons.mp hseg with h | h
      · subst h; simpa using hcur
      · exact ih [] (by simp) seg h
    · next h =>
      apply ih
      simp only [List.mem_cons, not_or]
      exact ⟨fun e => h e.symm, hcur⟩

theorem length_splitGo (sep : Char) (cs cur : List Char) :
    (splitGo sep cs cur).length = cs.count sep + 1 := by
  induction cs generalizing cur with
  | nil => simp [splitGo]
  | cons c cs ih =>
    unfold splitGo
    split
    · next h => subst h; simp [ih]
    · next h => rw [ih, List.count_cons_of_ne (fun e => h e.symm)]

theorem getLast?_splitGo (sep : Char) (cs cur : List Char) (h : cs.getLast? = some sep) :
    (splitGo sep cs cur).getLast? = some [] := by
  induction cs generalizing cur with
  | nil => simp at h
  | cons c cs ih =>
    unfold splitGo
    cases cs with
    | nil =>
      simp at h
      simp [h, splitGo]
    | cons d ds =>
      have h2 : (d :: ds).getLast? = some sep := by simpa [List.getLast?_cons_cons] using h
      split
      · rw [List.getLast?_cons, ih [] h2]; simp
      · exact ih _ h2

theorem map_content_mapWithIndex (code : Option Int) (i : Nat) (xs : List String) :
    (mapWithIndex (formatLine code) i xs).map (fun r => r.content) = xs := by
  induction xs generalizing i with
  | nil => rfl
  | cons x xs ih => simp [mapWithIndex, formatLine, ih]

theorem length_mapWithIndex {α β : Type} (f : α → Nat → β) (i : Nat) (xs : List α) :
    (mapWithIndex f i xs).length = xs.length := by
  induction xs generalizing i with
  | nil => rfl
  | cons x xs ih => simp [mapWithIndex, ih]

theorem get?_mapWithIndex {α β : Type} (f : α → Nat → β) (i k : Nat) (xs : List α) :
    (mapWithIndex f i xs).get? k = (xs.get? k).map (fun x => f x (i + k)) := by
  induction xs generalizing i k with
  | nil => rfl
  | cons x xs ih =>
    cases k with
    | zero => simp [mapWithIndex]
    | succ k =>
      simp only [mapWithIndex, List.get?_cons_succ, ih]
      have e : i + 1 + k = i + (k + 1) := by omega
      rw [e]

theorem data_contents_formattedOutput (output : String) (code : Option Int) :
    (formattedOutput output code).map (fun r => r.content.data) = splitGo '\n' output.data [] := by
  have h := congrArg (List.map String.data)
    (map_content_mapWithIndex code 0 (jsSplit '\n' output))
  simp only [List.map_map] at h
  simpa [formattedOutput, jsSplit, Function.comp_def] using h

/-! ## Output formatting: claims C1, C3 -/

/-- C1: the records of `formattedOutput` are the segments of the text between
line breaks, in order and unchanged: their contents are what `split` returns,
joining them with a line break gives the text back and none contains a line
break (so empty segments are kept); the record at position `i` (from 0) has
line number `i + 1`; and `"a\nb\nc"` gives (1, a), (2, b), (3, c). -/
theorem formattedOutput_segments (output : String) (code : Option Int) :
    (formattedOutput output code).map (fun r => r.content) = jsSplit '\n' output ∧
    [ '\n' ].intercalate ((formattedOutput output code).map (fun r => r.content.data))
      = output.data ∧
    (∀ r ∈ formattedOutput output code, '\n' ∉ r.content.data) ∧
    (∀ i r, (formattedOutput output code).get? i = some r → r.line = i + 1) ∧
    (formattedOutput "a\nb\nc" code).map (fun r => (r.line, r.content))
      = [(1, "a"), (2, "b"), (3, "c")] := by
  refine ⟨map_content_mapWithIndex code 0 _, ?_, ?_, ?_, ?_⟩
  · rw [data_contents_formattedOutput, intercalate_splitGo]; rfl
  · intro r hr
    have hmem : r.content.data ∈ (formattedOutput output code).map (fun r => r.content.data) :=
      List.mem_map_of_mem _ hr
    rw [data_contents_formattedOutput] at hmem
    exact not_mem_splitGo '\n' output.data [] (by simp) _ hmem
  · intro i r h
    unfold formattedOutput at h
    rw [get?_mapWithIndex] at h
    cases hx : (jsSplit '\n' output).get? i with
    | none => rw [hx] at h; simp at h
    | some x =>
      rw [hx] at h
      simp only [Option.map_some', Option.some.injEq] at h
      subst h
      simp [formatLine]
  · cases code <;> rfl

/-- C3: the number of records is the number of line breaks of the text plus
one, so the result is never empty; when the text ends with a line break the
last record has empty content; and `"1\n"` gives (1, 1), (2, empty). -/
theorem formattedOutput_count (output : String) (code : Option Int) :
    (formattedOutput output code).length = output.data.count '\n' + 1 ∧
    formattedOutput output code ≠ [] ∧
    (output.data.getLast? = some '\n' →
      (formattedOutput output code).getLast?.map (fun r => r.content) = some "") ∧
    (formattedOutput "1\n" code).map (fun r => (r.line, r.content)) = [(1, "1"), (2, "")] := by
  have hlen : (formattedOutput output code).length = output.data.count '\n' + 1 := by
    simp [formattedOutput, length_mapWithIndex, jsSplit, length_splitGo]
  refine ⟨hlen, ?_, ?_, ?_⟩
  · intro h
    rw [h] at hlen
    simp at hlen
  · intro h
    have h1 := getLast?_splitGo '\n' output.data [] h
    rw [← data_contents_formattedOutput output code, List.getLast?_map] at h1
    cases hl : (formattedOutput output code).getLast? with
    | none => simp [hl] at h1
    | some r =>
      simp only [hl, Option.map_some', Option.some.injEq] at h1 ⊢
      exact String.ext h1
  · cases code <;> rfl

/-! ## Lemmas on one undisturbed run -/

theorem modify_append_length {α : Type} (f : α → α) (l : List α) (a : α) :
    (l ++ [a]).modify f l.length = l ++ [f a] := by
  induction l with
  | nil => rfl
  | cons x xs ih => simp [List.modify_succ_cons, ih]

/-- The state a run reaches on a response that has both `run` and a text `output`. -/
theorem soloRun_with_output (s : EditorState) (cl : Closure) (d : Project)
    (code : Option Int) (output : String) (hd : cl.data = some d) :
    soloRun cl (Settled.fulfilled ())
        (Settled.fulfilled { run := some { code := code, output := some output } }) s =
      { reportExit code
          { s with
            executionSteps :=
              { compiling := false, running := true, completed := false, failed := false }
            loadingState := { status := "Processing output...", progress := 75 } } with
        isRunning := false
        output := Output.lines (formattedOutput output code)
        tasks := s.tasks ++ [{ pc := Pc.done, code := cl.code, data := cl.data }]
        timers := s.timers ++ [resetDelayMs]
        requests := s.requests ++ [executeBody d cl.code] } := by
  simp [soloRun, soloEvents, run, step, resume, runProject, afterDelay, afterFetch, afterJson,
    finallyBlock, setPc, hd, modify_append_length, reportExit]
  split <;> simp [modify_append_length]

/-- Whatever the outcome, a run ends, clears `isRunning` and leaves one more
reset timeout pending. -/
theorem soloRun_ends (s : EditorState) (cl : Closure) (fetch : Settled Unit)
    (json : Settled ExecResult) :
    (soloRun cl fetch json s).timers = s.timers ++ [resetDelayMs] ∧
    (soloRun cl fetch json s).tasks
      = s.tasks ++ [{ pc := Pc.done, code := cl.code, data := cl.data }] ∧
    (soloRun cl fetch json s).isRunning = false := by
  cases hd : cl.data with
  | none =>
    simp [soloRun, soloEvents, run, step, resume, runProject, afterDelay, afterFetch, afterJson,
      finallyBlock, catchBlock, setPc, hd, modify_append_length]
  | some d =>
    cases fetch with
    | rejected m =>
      simp [soloRun, soloEvents, run, step, resume, runProject, afterDelay, afterFetch,
        afterJson, finallyBlock, catchBlock, setPc, hd, modify_append_length]
    | fulfilled u =>
      cases json with
      | rejected m =>
        simp [soloRun, soloEvents, run, step, resume, runProject, afterDelay, afterFetch,
          afterJson, finallyBlock, catchBlock, setPc, hd, modify_append_length]
      | fulfilled result =>
        rcases result with ⟨_ | ⟨code, _ | output⟩⟩ <;>
        simp [soloRun, soloEvents, run, step, resume, runProject, afterDelay, afterFetch,
          afterJson, finallyBlock, catchBlock, setPc, hd, modify_append_length, reportExit] <;>
        split <;> simp [modify_append_length]

theorem type_formatLine_mem (code : Option Int) (i : Nat) (xs : List String) :
    ∀ r ∈ mapWithIndex (formatLine code) i xs,
      r.type = if code = some 1 then LineType.error else LineType.output := by
  induction xs generalizing i with
  | nil => simp [mapWithIndex]
  | cons x xs ih =>
    intro r hr
    rcases List.mem_cons.mp hr with h | h
    · subst h; rfl
    · exact ih _ r h

/-! ## Kind of the lines and exit code: claims C2, C4 -/

/-- C2: on a response carrying an output text, all lines that `runProject`
publishes have one kind: `error` for every line when the run ended with the
`failed` flag, `output` for every line when it ended with the `completed`
flag, and the run ends with exactly one of the two; `"boom"` in a failed run
gives [(1, boom, error)]. -/
theorem formattedOutput_one_kind (s : EditorState) (cl : Closure) (d : Project)
    (code : Option Int) (output : String) (hd : cl.data = some d) :
    (soloRun cl (Settled.fulfilled ())
        (Settled.fulfilled { run := some { code := code, output := some output } }) s).output
      = Output.lines (formattedOutput output code) ∧
    ((soloRun cl (Settled.fulfilled ())
        (Settled.fulfilled { run := some { code := code, output := some output } }) s
      ).executionSteps.failed = true →
      ∀ r ∈ formattedOutput output code, r.type = LineType.error) ∧
    ((soloRun cl (Settled.fulfilled ())
        (Settled.fulfilled { run := some { code := code, output := some output } }) s
      ).executionSteps.completed = true →
      ∀ r ∈ formattedOutput output code, r.type = LineType.output) ∧
    ((soloRun cl (Settled.fulfilled ())
        (Settled.fulfilled { run := some { code := code, output := some output } }) s
      ).executionSteps.failed
      ≠ (soloRun cl (Settled.fulfilled ())
        (Settled.fulfilled { run := some { code := code, output := some output } }) s
      ).executionSteps.completed) ∧
    ((∀ r ∈ formattedOutput output code, r.type = LineType.error) ∨
      (∀ r ∈ formattedOutput output code, r.type = LineType.output)) ∧
    formattedOutput "boom" (some 1) = [{ line := 1, content := "boom", type := LineType.error }] := by
  rw [soloRun_with_output s cl d code output hd]
  have hk := type_formatLine_mem code 0 (jsSplit '\n' output)
  by_cases hc : code = some 1
  · simp only [hc, if_true] at hk
    refine ⟨rfl, fun _ => ?_, fun h => ?_, ?_, Or.inl ?_, by decide⟩
    · simpa [hc] using hk
    · simp [reportExit, hc] at h
    · simp [reportExit, hc]
    · simpa [hc] using hk
  · simp only [hc, if_false] at hk
    refine ⟨rfl, fun h => ?_, fun _ => hk, ?_, Or.inr hk, by decide⟩
    · simp [reportExit, hc] at h
    · simp [reportExit, hc]

/-- Witness of C2 on the loaded sample project, exit code 1 and output `"boom"`. -/
theorem formattedOutput_one_kind_witness :
    (soloRun (currentClosure loaded) (Settled.fulfilled ())
        (Settled.fulfilled { run := some { code := some 1, output := some "boom" } }) loaded
      ).output
      = Output.lines [{ line := 1, content := "boom", type := LineType.error }] :=
  (formattedOutput_one_kind loaded (currentClosure loaded) sampleProject (some 1) "boom"
    (by decide)).1.trans (by decide)

/-- C4, counterexample: a response of the documented shape with exit code 2
ends the run with the `completed` flag, progress 100, the error flag still
false and its line of kind `output`. -/
theorem exit_code_two_ends_completed :
    (soloRun (currentClosure loaded) (Settled.fulfilled ()) (wellFormed 2 "Traceback") loaded
      ).executionSteps
      = { compiling := false, running := false, completed := true, failed := false } ∧
    (soloRun (currentClosure loaded) (Settled.fulfilled ()) (wellFormed 2 "Traceback") loaded
      ).loadingState.progress = 100 ∧
    (soloRun (currentClosure loaded) (Settled.fulfilled ()) (wellFormed 2 "Traceback") loaded
      ).error = false ∧
    (soloRun (currentClosure loaded) (Settled.fulfilled ()) (wellFormed 2 "Traceback") loaded
      ).output
      = Output.lines [{ line := 1, content := "Traceback", type := LineType.output }] := by
  decide

/-- C4, amended: on a response of the documented shape the outcome depends on
the exit code alone, and the test is equality with 1: exit code 1 ends the run
with only the `failed` flag, the error flag set and every line of kind
`error`; every other exit code, zero or not, ends it with only the
`completed` flag, progress 100, the error flag as it was and every line of
kind `output`. -/
theorem exit_code_one_alone_fails (s : EditorState) (cl : Closure) (d : Project)
    (code : Int) (output : String) (hd : cl.data = some d) :
    (code = 1 →
      (soloRun cl (Settled.fulfilled ()) (wellFormed code output) s).executionSteps
        = { compiling := false, running := false, completed := false, failed := true } ∧
      (soloRun cl (Settled.fulfilled ()) (wellFormed code output) s).error = true ∧
      ∀ r ∈ formattedOutput output (some code), r.type = LineType.error) ∧
    (code ≠ 1 →
      (soloRun cl (Settled.fulfilled ()) (wellFormed code output) s).executionSteps
        = { compiling := false, running := false, completed := true, failed := false } ∧
      (soloRun cl (Settled.fulfilled ()) (wellFormed code output) s).loadingState.progress
        = 100 ∧
      (soloRun cl (Settled.fulfilled ()) (wellFormed code output) s).error = s.error ∧
      ∀ r ∈ formattedOutput output (some code), r.type = LineType.output) ∧
    (soloRun cl (Settled.fulfilled ()) (wellFormed code output) s).output
      = Output.lines (formattedOutput output (some code)) := by
  unfold wellFormed
  rw [soloRun_with_output s cl d (some code) output hd]
  have hk := type_formatLine_mem (some code) 0 (jsSplit '\n' output)
  refine ⟨fun h => ?_, fun h => ?_, rfl⟩
  · subst h
    exact ⟨by simp [reportExit], by simp [reportExit], by simpa using hk⟩
  · have hc : ¬ (some code = some (1 : Int)) := fun e => h (Option.some.inj e)
    simp only [hc, if_false] at hk
    exact ⟨by simp [reportExit, h], by simp [reportExit, h], by simp [reportExit, h], hk⟩

/-- Witness of the amended C4 on the loaded sample project and exit code 0. -/
theorem exit_code_one_alone_fails_witness :
    (soloRun (currentClosure loaded) (Settled.fulfilled ()) (wellFormed 0 "ok") loaded).output
      = Output.lines [{ line := 1, content := "ok", type := LineType.output }] :=
  (exit_code_one_alone_fails loaded (currentClosure loaded) sampleProject 0 "ok"
    (by decide)).2.2.trans (by decide)

/-! ## Starting a run: claims C5, C6 -/

/-- C5, the code at the failing input: after a load, Ctrl+F and Ctrl+B, once
the delay has elapsed the run is in its Running phase with one request
awaiting its response.  A click on a Run button changes nothing there, but a
second Ctrl+B changes the state (the flags go back to Compiling and a second
invocation is suspended) and, once its delay has elapsed, a second request has
been sent and two await their response. -/
theorem ctrlB_starts_second_run :
    (run loaded [Event.keyCtrlF, Event.keyCtrlB, Event.delayElapsed 0]).executionSteps
      = { compiling := false, running := true, completed := false, failed := false } ∧
    inFlight (run loaded [Event.keyCtrlF, Event.keyCtrlB, Event.delayElapsed 0]) = 1 ∧
    step (run loaded [Event.keyCtrlF, Event.keyCtrlB, Event.delayElapsed 0]) Event.clickRun
      = run loaded [Event.keyCtrlF, Event.keyCtrlB, Event.delayElapsed 0] ∧
    step (run loaded [Event.keyCtrlF, Event.keyCtrlB, Event.delayElapsed 0]) Event.keyCtrlB
      ≠ run loaded [Event.keyCtrlF, Event.keyCtrlB, Event.delayElapsed 0] ∧
    (run loaded [Event.keyCtrlF, Event.keyCtrlB, Event.delayElapsed 0, Event.keyCtrlB]
      ).executionSteps
      = { compiling := true, running := false, completed := false, failed := false } ∧
    (run loaded [Event.keyCtrlF, Event.keyCtrlB, Event.delayElapsed 0, Event.keyCtrlB,
      Event.delayElapsed 1]).requests.length = 2 ∧
    inFlight (run loaded [Event.keyCtrlF, Event.keyCtrlB, Event.delayElapsed 0, Event.keyCtrlB,
      Event.delayElapsed 1]) = 2 := by
  decide

/-! ## Lemmas on the events outside the run controller -/

theorem sameRun_refl (s : EditorState) : SameRun s s :=
  ⟨rfl, rfl, rfl, rfl⟩

theorem sameRun_trans {a b c : EditorState} (h1 : SameRun a b) (h2 : SameRun b c) :
    SameRun a c :=
  ⟨h1.1.trans h2.1, h1.2.1.trans h2.2.1, h1.2.2.1.trans h2.2.2.1, h1.2.2.2.trans h2.2.2.2⟩

theorem sameRun_refreshKeyHandler (before s : EditorState) :
    SameRun (refreshKeyHandler before s) s := by
  unfold refreshKeyHandler
  split <;> exact ⟨rfl, rfl, rfl, rfl⟩

theorem sameRun_refreshSaveHandler (before s : EditorState) :
    SameRun (refreshSaveHandler before s) s := by
  unfold refreshSaveHandler
  split <;> exact ⟨rfl, rfl, rfl, rfl⟩

theorem sameRun_saveProject (cl : Closure) (caller : SaveCaller) (s : EditorState) :
    SameRun (saveProject cl caller s) s :=
  ⟨rfl, rfl, rfl, rfl⟩

theorem sameRun_handleSave (cl : Closure) (s : EditorState) : SameRun (handleSave cl s) s :=
  ⟨rfl, rfl, rfl, rfl⟩

theorem sameRun_afterSave (i : Nat) (t : SaveTask) (r : Settled SaveResponse)
    (s : EditorState) : SameRun (afterSave i t r s) s := by
  unfold afterSave
  split
  · exact ⟨rfl, rfl, rfl, rfl⟩
  · split <;> exact ⟨rfl, rfl, rfl, rfl⟩

theorem sameRun_onSelection (selection : String) (s : EditorState) :
    SameRun (onSelection selection s) s := by
  unfold onSelection
  split <;> exact ⟨rfl, rfl, rfl, rfl⟩

theorem sameRun_handleSaveShortcut (e : KeyEvent) (s : EditorState) :
    SameRun (handleSaveShortcut e s).2 s := by
  unfold handleSaveShortcut
  split <;> exact ⟨rfl, rfl, rfl, rfl⟩

theorem handleSaveShortcut_frame (e : KeyEvent) (s : EditorState) :
    (handleSaveShortcut e s).2.keyHandler = s.keyHandler ∧
    (handleSaveShortcut e s).2.isFullScreen = s.isFullScreen ∧
    (handleSaveShortcut e s).2.saveHandler = s.saveHandler ∧
    (handleSaveShortcut e s).2.code = s.code ∧
    (handleSaveShortcut e s).2.data = s.data := by
  unfold handleSaveShortcut
  split <;> exact ⟨rfl, rfl, rfl, rfl, rfl⟩

theorem sameRun_afterLoad (r : Settled LoadResponse) (s : EditorState) :
    SameRun (afterLoad r s) s := by
  unfold afterLoad
  split
  · exact ⟨rfl, rfl, rfl, rfl⟩
  · split
    · split <;> exact ⟨rfl, rfl, rfl, rfl⟩
    · exact ⟨rfl, rfl, rfl, rfl⟩

/-- A `keydown` that is not Ctrl+B leaves the run controller as it was. -/
theorem sameRun_keydown (e : KeyEvent) (s : EditorState)
    (h : (e.ctrlKey && e.key == "b") = false) :
    SameRun (step s (Event.keydown e)) s := by
  have hk : ∀ s2 : EditorState, SameRun (handleKeyPress e s2).2 s2 := by
    intro s2
    unfold handleKeyPress
    split
    · exact ⟨rfl, rfl, rfl, rfl⟩
    · rw [h]
      simp only [Bool.false_eq_true, if_false]
      split <;> exact ⟨rfl, rfl, rfl, rfl⟩
  simp only [step]
  refine sameRun_trans (sameRun_refreshKeyHandler _ _) ?_
  unfold keydownListeners
  split
  · exact sameRun_trans (hk _) (sameRun_handleSaveShortcut e s)
  · exact sameRun_trans (sameRun_handleSaveShortcut e _) (hk s)

/-- Ctrl+B seen through `keydown` is the event `keyCtrlB`. -/
theorem step_keydown_b (e : KeyEvent) (s : EditorState)
    (h : (e.ctrlKey && e.key == "b") = true) :
    step s (Event.keydown e) = step s Event.keyCtrlB := by
  have hc : e.ctrlKey = true := by
    cases hcv : e.ctrlKey <;> simp [hcv] at h ⊢
  have hb : e.key = "b" := by simpa [hc] using h
  have hs : (e.ctrlKey && e.key == "s") = false := by rw [hb, hc]; decide
  have h1 : handleSaveShortcut e s = (false, s) := by
    unfold handleSaveShortcut
    rw [hs]; rfl
  have h2 : ∀ s2 : EditorState, handleKeyPress e s2 = (true, runProject s2.keyHandler s2) := by
    intro s2
    unfold handleKeyPress
    rw [hs, h]; rfl
  have h3 : ∀ s2 : EditorState, handleSaveShortcut e s2 = (false, s2) := by
    intro s2
    unfold handleSaveShortcut
    rw [hs]; rfl
  simp only [step, keydownListeners, h2, h3]
  split <;> simp [refreshKeyHandler, runProject]

/-- Ctrl+F seen through `keydown` is the event `keyCtrlF`. -/
theorem step_keydown_f (e : KeyEvent) (s : EditorState)
    (hc : e.ctrlKey = true) (hf : e.key = "f") :
    step s (Event.keydown e) = step s Event.keyCtrlF := by
  have hs : (e.ctrlKey && e.key == "s") = false := by rw [hf, hc]; decide
  have hb : (e.ctrlKey && e.key == "b") = false := by rw [hf, hc]; decide
  have hff : (e.ctrlKey && e.key == "f") = true := by rw [hf, hc]; decide
  have h2 : ∀ s2 : EditorState,
      handleKeyPress e s2 = (true, { s2 with isFullScreen := !s2.keyHandler.isFullScreen }) := by
    intro s2
    unfold handleKeyPress
    rw [hs, hb, hff]; rfl
  have h3 : ∀ s2 : EditorState, handleSaveShortcut e s2 = (false, s2) := by
    intro s2
    unfold handleSaveShortcut
    rw [hs]; rfl
  simp only [step, keydownListeners, h2, h3]
  split <;> rfl

/-- An event that does not reach the run controller leaves it as it was. -/
theorem sameRun_step (s : EditorState) (e : Event) (h : touchesRun e = false) :
    SameRun (step s e) s := by
  cases e with
  | projectLoaded p =>
    exact sameRun_trans (sameRun_refreshSaveHandler _ _) ⟨rfl, rfl, rfl, rfl⟩
  | editorChange c =>
    exact sameRun_trans (sameRun_refreshSaveHandler _ _) ⟨rfl, rfl, rfl, rfl⟩
  | clickRun => simp [touchesRun] at h
  | keyCtrlB => simp [touchesRun] at h
  | keyCtrlF => exact sameRun_trans (sameRun_refreshKeyHandler _ _) ⟨rfl, rfl, rfl, rfl⟩
  | delayElapsed i => simp [touchesRun] at h
  | fetchSettled i r => simp [touchesRun] at h
  | jsonSettled i r => simp [touchesRun] at h
  | resetTimerFires => simp [touchesRun] at h
  | selectionChanged t => exact sameRun_onSelection t s
  | keydown k => exact sameRun_keydown k s h
  | clickSave => exact sameRun_handleSave _ s
  | saveSettled i r =>
    simp only [step]
    split
    · split
      · exact sameRun_afterSave _ _ _ s
      · exact sameRun_refl s
    · exact sameRun_refl s
  | loadSettled r => exact sameRun_trans (sameRun_refreshSaveHandler _ _) (sameRun_afterLoad r s)

theorem pcOf_sameRun {a b : EditorState} (h : SameRun a b) (i : Nat) : pcOf a i = pcOf b i := by
  simp [pcOf, h.1]

/-! ## Lemmas on the reset timeouts -/

theorem timers_finallyBlock (i : Nat) (s : EditorState) :
    (finallyBlock i s).timers = s.timers ++ [resetDelayMs] := rfl

theorem timers_catchBlock (m : String) (s : EditorState) :
    (catchBlock m s).timers = s.timers := rfl

theorem timers_setPc (i : Nat) (pc : Pc) (s : EditorState) :
    (setPc i pc s).timers = s.timers := rfl

theorem timers_reportExit (code : Option Int) (s : EditorState) :
    (reportExit code s).timers = s.timers := by
  unfold reportExit; split <;> rfl

theorem tasks_reportExit (code : Option Int) (s : EditorState) :
    (reportExit code s).tasks = s.tasks := by
  unfold reportExit; split <;> rfl

theorem pcOf_setPc (s : EditorState) (i j : Nat) (pc : Pc) :
    pcOf (setPc j pc s) i = if j = i then (pcOf s i).map (fun _ => pc) else pcOf s i := by
  simp only [pcOf, setPc, List.get?_eq_getElem?, List.getElem?_modify]
  cases s.tasks[i]? <;> by_cases h : j = i <;> simp [h]

theorem pcOf_runProject (s : EditorState) (cl : Closure) (i : Nat) (p : Pc)
    (h : pcOf s i = some p) : pcOf (runProject cl s) i = some p := by
  simp only [pcOf, runProject, List.get?_eq_getElem?] at h ⊢
  cases hi : s.tasks[i]? with
  | none => simp [hi] at h
  | some t =>
    have hlt : i < s.tasks.length := (List.getElem?_eq_some_iff.mp hi).1
    rw [List.getElem?_append_left hlt, hi]
    simpa [hi] using h

/-- An event that ends an invocation (its program counter becomes `done`)
schedules exactly one reset timeout, of 2000 ms. -/
theorem ending_schedules_reset (s : EditorState) (e : Event) (i : Nat) (p : Pc)
    (hp : pcOf s i = some p) (hne : p ≠ Pc.done)
    (hdone : pcOf (step s e) i = some Pc.done) :
    (step s e).timers = s.timers ++ [resetDelayMs] := by
  have stay : ∀ s2 : EditorState, pcOf s2 i = some p → pcOf s2 i = some Pc.done → False := by
    intro s2 h1 h2
    rw [h1] at h2
    exact hne (Option.some.inj h2)
  have moved : ∀ (s2 : EditorState) (j : Nat) (q : Pc), q ≠ Pc.done → s2.tasks = s.tasks →
      pcOf (setPc j q s2) i = some Pc.done → False := by
    intro s2 j q hq ht h2
    have hp2 : pcOf s2 i = some p := by simpa [pcOf, ht] using hp
    rw [pcOf_setPc, hp2] at h2
    by_cases hji : j = i
    · simp [hji] at h2; exact hq h2
    · simp [hji] at h2; exact hne h2
  have frame : ∀ e2 : Event, touchesRun e2 = false → pcOf (step s e2) i = some Pc.done →
      False := by
    intro e2 h2 hd
    exact stay (step s e2) (by rw [pcOf_sameRun (sameRun_step s e2 h2)]; exact hp) hd
  cases e with
  | projectLoaded pr => exact (frame (Event.projectLoaded pr) rfl hdone).elim
  | editorChange c => exact (frame (Event.editorChange c) rfl hdone).elim
  | clickRun =>
    exfalso
    simp only [step] at hdone
    split at hdone
    · exact stay s hp hdone
    · rw [pcOf_runProject s _ i p hp] at hdone
      exact hne (Option.some.inj hdone)
  | keyCtrlB =>
    exfalso
    simp only [step] at hdone
    rw [pcOf_runProject s _ i p hp] at hdone
    exact hne (Option.some.inj hdone)
  | keyCtrlF => exact (frame (Event.keyCtrlF) rfl hdone).elim
  | selectionChanged t => exact (frame (Event.selectionChanged t) rfl hdone).elim
  | clickSave => exact (frame (Event.clickSave) rfl hdone).elim
  | saveSettled j r => exact (frame (Event.saveSettled j r) rfl hdone).elim
  | loadSettled r => exact (frame (Event.loadSettled r) rfl hdone).elim
  | keydown k =>
    exfalso
    cases hk : (k.ctrlKey && k.key == "b") with
    | false => exact frame (Event.keydown k) hk hdone
    | true =>
      rw [step_keydown_b k s hk] at hdone
      simp only [step] at hdone
      rw [pcOf_runProject s _ i p hp] at hdone
      exact hne (Option.some.inj hdone)
  | delayElapsed j =>
    simp only [step, resume] at hdone ⊢
    split at hdone
    · split at hdone
      · rename_i t ht hpc
        simp only [ht, hpc, if_true]
        unfold afterDelay at hdone ⊢
        split at hdone
        · rename_i hd
          simp [hd, timers_finallyBlock, timers_catchBlock]
        · exact (moved _ j Pc.awaitFetch (by decide) rfl hdone).elim
      · exact (stay s hp hdone).elim
    · exact (stay s hp hdone).elim
  | fetchSettled j r =>
    simp only [step, resume] at hdone ⊢
    split at hdone
    · split at hdone
      · rename_i t ht hpc
        simp only [ht, hpc, if_true]
        unfold afterFetch at hdone ⊢
        split at hdone
        · simp [timers_finallyBlock, timers_catchBlock]
        · exact (moved _ j Pc.awaitJson (by decide) rfl hdone).elim
      · exact (stay s hp hdone).elim
    · exact (stay s hp hdone).elim
  | jsonSettled j r =>
    simp only [step, resume] at hdone ⊢
    split at hdone
    · split at hdone
      · rename_i t ht hpc
        simp only [ht, hpc, if_true]
        unfold afterJson
        split
        · simp [timers_finallyBlock, timers_catchBlock]
        · split
          · simp [timers_finallyBlock, timers_catchBlock]
          · split
            · simp [timers_finallyBlock, timers_catchBlock, timers_reportExit]
            · simp [timers_finallyBlock, timers_reportExit]
      · exact (stay s hp hdone).elim
    · exact (stay s hp hdone).elim
  | resetTimerFires =>
    exfalso
    simp only [step] at hdone
    split at hdone
    · exact stay s hp hdone
    · exact stay s hp (by simpa [pcOf, resetCallback] using hdone)

theorem step_fires (s : EditorState) (d : Nat) (rest : List Nat) (h : s.timers = d :: rest) :
    step s Event.resetTimerFires = resetCallback { s with timers := rest } := by
  simp [step, h]

/-- No event but the firing itself removes a scheduled reset: every other
event leaves the pending timeouts in place, possibly with new ones behind them. -/
theorem timers_kept (s : EditorState) (e : Event) (h : e ≠ Event.resetTimerFires) :
    ∃ added, (step s e).timers = s.timers ++ added := by
  have frame : ∀ e2 : Event, touchesRun e2 = false →
      ∃ added, (step s e2).timers = s.timers ++ added :=
    fun e2 h2 => ⟨[], by rw [(sameRun_step s e2 h2).2.1]; simp⟩
  cases e with
  | projectLoaded p => exact frame (Event.projectLoaded p) rfl
  | editorChange c => exact frame (Event.editorChange c) rfl
  | clickRun =>
    refine ⟨[], ?_⟩
    simp only [step]
    split <;> simp [runProject]
  | keyCtrlB => exact ⟨[], by simp [step, runProject]⟩
  | keyCtrlF => exact frame (Event.keyCtrlF) rfl
  | selectionChanged t => exact frame (Event.selectionChanged t) rfl
  | clickSave => exact frame (Event.clickSave) rfl
  | saveSettled j r => exact frame (Event.saveSettled j r) rfl
  | loadSettled r => exact frame (Event.loadSettled r) rfl
  | keydown k =>
    cases hk : (k.ctrlKey && k.key == "b") with
    | false => exact frame (Event.keydown k) hk
    | true => exact ⟨[], by rw [step_keydown_b k s hk]; simp [step, runProject]⟩
  | delayElapsed i =>
    simp only [step, resume]
    split
    · split
      · unfold afterDelay
        split
        · exact ⟨[resetDelayMs], by simp [timers_finallyBlock, timers_catchBlock]⟩
        · exact ⟨[], by simp [timers_setPc]⟩
      · exact ⟨[], by simp⟩
    · exact ⟨[], by simp⟩
  | fetchSettled i r =>
    simp only [step, resume]
    split
    · split
      · unfold afterFetch
        split
        · exact ⟨[resetDelayMs], by simp [timers_finallyBlock, timers_catchBlock]⟩
        · exact ⟨[], by simp [timers_setPc]⟩
      · exact ⟨[], by simp⟩
    · exact ⟨[], by simp⟩
  | jsonSettled i r =>
    simp only [step, resume]
    split
    · split
      · unfold afterJson
        split
        · exact ⟨[resetDelayMs], by simp [timers_finallyBlock, timers_catchBlock]⟩
        · split
          · exact ⟨[resetDelayMs], by simp [timers_finallyBlock, timers_catchBlock]⟩
          · split
            · exact ⟨[resetDelayMs],
                by simp [timers_finallyBlock, timers_catchBlock, timers_reportExit]⟩
            · exact ⟨[resetDelayMs], by simp [timers_finallyBlock, timers_reportExit]⟩
      · exact ⟨[], by simp⟩
    · exact ⟨[], by simp⟩
  | resetTimerFires => exact absurd rfl h

theorem replicate_fires (n : Nat) (s : EditorState) (h : s.timers.length = n + 1) :
    (run s (List.replicate (n + 1) Event.resetTimerFires)).executionSteps = idleSteps ∧
    (run s (List.replicate (n + 1) Event.resetTimerFires)).loadingState
      = { status := "", progress := 0 } ∧
    (run s (List.replicate (n + 1) Event.resetTimerFires)).timers = [] := by
  induction n generalizing s with
  | zero =>
    match hs : s.timers, h with
    | [d], _ => simp [run, step, hs, resetCallback, idleSteps]
  | succ n ih =>
    match hs : s.timers, h with
    | d :: rest, h =>
      have hl : rest.length = n + 1 := by simpa using h
      rw [List.replicate_succ, run, List.foldl_cons]
      have := ih (step s Event.resetTimerFires) (by simp [step, hs, resetCallback, hl])
      simpa [run] using this

/-- C6, counterexample: a first run ends Completed and leaves its reset
pending; a click starts a second run, which reaches its Running phase
(progress 50, request awaiting its response); the first run's reset then
fires and the second run, still awaiting its response, shows no phase flag
and progress 0. -/
theorem stale_reset_overwrites_new_run :
    (run loaded [Event.clickRun, Event.delayElapsed 0, Event.fetchSettled 0 (Settled.fulfilled ()),
      Event.jsonSettled 0 (wellFormed 0 "ok")]).timers = [2000] ∧
    (run loaded [Event.clickRun, Event.delayElapsed 0, Event.fetchSettled 0 (Settled.fulfilled ()),
      Event.jsonSettled 0 (wellFormed 0 "ok"), Event.clickRun, Event.delayElapsed 1]).timers
      = [2000] ∧
    (run loaded [Event.clickRun, Event.delayElapsed 0, Event.fetchSettled 0 (Settled.fulfilled ()),
      Event.jsonSettled 0 (wellFormed 0 "ok"), Event.clickRun, Event.delayElapsed 1]
      ).executionSteps
      = { compiling := false, running := true, completed := false, failed := false } ∧
    (run loaded [Event.clickRun, Event.delayElapsed 0, Event.fetchSettled 0 (Settled.fulfilled ()),
      Event.jsonSettled 0 (wellFormed 0 "ok"), Event.clickRun, Event.delayElapsed 1]
      ).loadingState.progress = 50 ∧
    (run loaded [Event.clickRun, Event.delayElapsed 0, Event.fetchSettled 0 (Settled.fulfilled ()),
      Event.jsonSettled 0 (wellFormed 0 "ok"), Event.clickRun, Event.delayElapsed 1,
      Event.resetTimerFires]).executionSteps = idleSteps ∧
    (run loaded [Event.clickRun, Event.delayElapsed 0, Event.fetchSettled 0 (Settled.fulfilled ()),
      Event.jsonSettled 0 (wellFormed 0 "ok"), Event.clickRun, Event.delayElapsed 1,
      Event.resetTimerFires]).loadingState = { status := "", progress := 0 } ∧
    pcOf (run loaded [Event.clickRun, Event.delayElapsed 0,
      Event.fetchSettled 0 (Settled.fulfilled ()), Event.jsonSettled 0 (wellFormed 0 "ok"),
      Event.clickRun, Event.delayElapsed 1, Event.resetTimerFires]) 1 = some Pc.awaitFetch := by
  decide

/-- C6, amended: a reset that is pending when `runProject` is started again is
not cancelled.  The start leaves it scheduled, no later event but its own
firing removes it, and when it fires during the new run (in its Compiling
phase, or after the delay has elapsed) it sets the four flags to false, the
status to empty and progress to 0 while the new run goes on. -/
theorem pending_reset_survives_restart (s : EditorState) (cl : Closure) (d : Nat)
    (rest : List Nat) (h : s.timers = d :: rest) :
    (runProject cl s).timers = d :: rest ∧
    (∀ e, e ≠ Event.resetTimerFires →
      ∃ added, (step (runProject cl s) e).timers = d :: rest ++ added) ∧
    (step (runProject cl s) Event.resetTimerFires).executionSteps = idleSteps ∧
    (step (runProject cl s) Event.resetTimerFires).loadingState
      = { status := "", progress := 0 } ∧
    pcOf (step (runProject cl s) Event.resetTimerFires) s.tasks.length = some Pc.awaitDelay ∧
    (run (runProject cl s) [Event.delayElapsed s.tasks.length, Event.resetTimerFires]
      ).executionSteps = idleSteps ∧
    (run (runProject cl s) [Event.delayElapsed s.tasks.length, Event.resetTimerFires]
      ).loadingState = { status := "", progress := 0 } := by
  have ht : (runProject cl s).timers = d :: rest := by simpa [runProject] using h
  refine ⟨ht, ?_, ?_, ?_, ?_, ?_, ?_⟩
  · intro e he
    obtain ⟨added, ha⟩ := timers_kept (runProject cl s) e he
    exact ⟨added, by rw [ha, ht]⟩
  · simp [step, ht, resetCallback, idleSteps]
  · simp [step, ht, resetCallback]
  · rw [step_fires _ d rest ht]
    simp [resetCallback, pcOf, runProject]
  · obtain ⟨added, ha⟩ := timers_kept (runProject cl s) (Event.delayElapsed s.tasks.length)
      (by simp)
    rw [ht] at ha
    simp only [run, List.foldl_cons, List.foldl_nil]
    generalize step (runProject cl s) (Event.delayElapsed s.tasks.length) = s2 at ha
    simp [step, ha, resetCallback, idleSteps]
  · obtain ⟨added, ha⟩ := timers_kept (runProject cl s) (Event.delayElapsed s.tasks.length)
      (by simp)
    rw [ht] at ha
    simp only [run, List.foldl_cons, List.foldl_nil]
    generalize step (runProject cl s) (Event.delayElapsed s.tasks.length) = s2 at ha
    simp [step, ha, resetCallback]

/-- Witness of the amended C6: the state left by a completed first run has one
reset pending, and a second start keeps it. -/
theorem pending_reset_survives_restart_witness :
    (runProject (currentClosure loaded)
      (soloRun (currentClosure loaded) (Settled.fulfilled ()) (wellFormed 0 "ok") loaded)).timers
      = [2000] :=
  (pending_reset_survives_restart
    (soloRun (currentClosure loaded) (Settled.fulfilled ()) (wellFormed 0 "ok") loaded)
    (currentClosure loaded) 2000 [] (by decide)).1

/-! ## Phase flags and progress: claims C7, C8, C9 -/

/-- C7, the code at the failing input: on a response whose `run` has exit
code 0 and no `output`, a single run started from the idle phase ends with
both `completed` and `failed` set. -/
theorem missing_output_sets_both_flags :
    loaded.executionSteps = idleSteps ∧
    (soloRun (currentClosure loaded) (Settled.fulfilled ())
      (Settled.fulfilled { run := some { code := some 0, output := none } }) loaded
      ).executionSteps
      = { compiling := false, running := false, completed := true, failed := true } := by
  decide

/-- C8, the code at the failing input: a run started by a click is awaiting
its response when Ctrl+B starts another one; when the first response arrives
(exit code 0) the state reached has both `compiling` and `completed` set. -/
theorem two_flags_after_overlap :
    (run loaded [Event.clickRun, Event.delayElapsed 0, Event.keyCtrlB,
      Event.fetchSettled 0 (Settled.fulfilled ()), Event.jsonSettled 0 (wellFormed 0 "ok")]
      ).executionSteps
      = { compiling := true, running := false, completed := true, failed := false } ∧
    Reachable (run loaded [Event.clickRun, Event.delayElapsed 0, Event.keyCtrlB,
      Event.fetchSettled 0 (Settled.fulfilled ()), Event.jsonSettled 0 (wellFormed 0 "ok")]) :=
  ⟨by decide,
    ⟨[Event.projectLoaded sampleProject, Event.clickRun, Event.delayElapsed 0, Event.keyCtrlB,
      Event.fetchSettled 0 (Settled.fulfilled ()), Event.jsonSettled 0 (wellFormed 0 "ok")],
      rfl⟩⟩

/-- C9, the code at the failing input: in a single run from the idle phase
progress is 25 after the start, 50 once the delay has elapsed, 75 once
`fetch` has returned; on a response with exit code 0 and no `output` the run
then ends with progress 100 and the `failed` flag set. -/
theorem failed_run_reaches_100 :
    (runProject (currentClosure loaded) loaded).loadingState.progress = 25 ∧
    (run (runProject (currentClosure loaded) loaded) [Event.delayElapsed 0]
      ).loadingState.progress = 50 ∧
    (run (runProject (currentClosure loaded) loaded)
      [Event.delayElapsed 0, Event.fetchSettled 0 (Settled.fulfilled ())]
      ).loadingState.progress = 75 ∧
    (run (runProject (currentClosure loaded) loaded)
      [Event.delayElapsed 0, Event.fetchSettled 0 (Settled.fulfilled ()),
        Event.jsonSettled 0 (Settled.fulfilled { run := some { code := some 0, output := none } })]
      ).loadingState.progress = 100 ∧
    (run (runProject (currentClosure loaded) loaded)
      [Event.delayElapsed 0, Event.fetchSettled 0 (Settled.fulfilled ()),
        Event.jsonSettled 0 (Settled.fulfilled { run := some { code := some 0, output := none } })]
      ).executionSteps.failed = true := by
  decide

/-! ## The reset: claim C10 -/

/-- C10: every run, whatever the closure that started it and however `fetch`
and `response.json()` settle, leaves exactly one more reset pending, of
2000 ms; once the resets pending before it and its own have fired, with
nothing else in between, the four flags are false, the status is empty,
progress is 0 and no reset is pending.  The same holds event by event in any
interleaving: the event that ends an invocation schedules exactly one reset,
and a reset that fires leaves the four flags false, the status empty and
progress 0 whatever the state it fires in. -/
theorem run_schedules_one_reset (s : EditorState) (cl : Closure) (fetch : Settled Unit)
    (json : Settled ExecResult) :
    (soloRun cl fetch json s).timers = s.timers ++ [2000] ∧
    pcOf (soloRun cl fetch json s) s.tasks.length = some Pc.done ∧
    (run (soloRun cl fetch json s)
      (List.replicate (s.timers.length + 1) Event.resetTimerFires)).executionSteps
      = idleSteps ∧
    (run (soloRun cl fetch json s)
      (List.replicate (s.timers.length + 1) Event.resetTimerFires)).loadingState
      = { status := "", progress := 0 } ∧
    (run (soloRun cl fetch json s)
      (List.replicate (s.timers.length + 1) Event.resetTimerFires)).timers = [] ∧
    (∀ (e : Event) (i : Nat) (p : Pc), pcOf s i = some p → p ≠ Pc.done →
      pcOf (step s e) i = some Pc.done → (step s e).timers = s.timers ++ [2000]) ∧
    (∀ (d : Nat) (rest : List Nat), s.timers = d :: rest →
      (step s Event.resetTimerFires).executionSteps = idleSteps ∧
      (step s Event.resetTimerFires).loadingState = { status := "", progress := 0 } ∧
      (step s Event.resetTimerFires).timers = rest) := by
  obtain ⟨h1, h2, _⟩ := soloRun_ends s cl fetch json
  have hlen : (soloRun cl fetch json s).timers.length = s.timers.length + 1 := by
    rw [h1]; simp
  obtain ⟨f1, f2, f3⟩ := replicate_fires s.timers.length (soloRun cl fetch json s) hlen
  refine ⟨h1, ?_, f1, f2, f3, ?_, ?_⟩
  · simp [pcOf, h2]
  · intro e i p hp hne hdone
    exact ending_schedules_reset s e i p hp hne hdone
  · intro d rest hs
    rw [step_fires s d rest hs]
    exact ⟨rfl, rfl, rfl⟩

/-! ## Sessions without the shortcut: one run at a time -/

theorem activePcs_append_done (l : List RunTask) (t : RunTask) (h : t.pc ≠ Pc.done) :
    activePcs (l ++ [t]) = activePcs l ++ [t.pc] := by
  induction l with
  | nil => simp [activePcs, h]
  | cons x xs ih =>
    simp only [List.cons_append, activePcs]
    split <;> simp [ih]

theorem activePcs_ne_nil (l : List RunTask) (i : Nat) (t : RunTask)
    (hi : l.get? i = some t) (ht : t.pc ≠ Pc.done) : activePcs l ≠ [] := by
  induction l generalizing i with
  | nil => simp at hi
  | cons x xs ih =>
    cases i with
    | zero =>
      simp at hi
      subst hi
      simp [activePcs, ht]
    | succ i =>
      simp only [activePcs]
      split
      · exact ih i (by simpa using hi)
      · simp

theorem activePcs_modify (l : List RunTask) (i : Nat) (t : RunTask) (p q : Pc)
    (hi : l.get? i = some t) (ht : t.pc ≠ Pc.done) (hp : activePcs l = [p]) :
    p = t.pc ∧
    activePcs (l.modify (fun t => { t with pc := q }) i) = if q = Pc.done then [] else [q] := by
  induction l generalizing i with
  | nil => simp at hi
  | cons x xs ih =>
    cases i with
    | zero =>
      simp at hi
      subst hi
      simp only [activePcs, ht, if_false, List.cons.injEq] at hp
      refine ⟨hp.1.symm, ?_⟩
      simp only [List.modify, List.modifyTailIdx, List.modifyHead, activePcs, hp.2]
    | succ i =>
      have hi2 : xs.get? i = some t := by simpa using hi
      by_cases hx : x.pc = Pc.done
      · simp only [activePcs, hx, if_true] at hp
        obtain ⟨h1, h2⟩ := ih i hi2 hp
        refine ⟨h1, ?_⟩
        simp only [List.modify_succ_cons, activePcs, hx, if_true]
        exact h2
      · simp only [activePcs, hx, if_false, List.cons.injEq] at hp
        exact absurd hp.2 (activePcs_ne_nil xs i t hi2 ht)

theorem inFlight_le_active (l : List RunTask) :
    (l.filter (fun t => decide (t.pc = Pc.awaitFetch))).length ≤ (activePcs l).length := by
  induction l with
  | nil => simp [activePcs]
  | cons x xs ih =>
    simp only [activePcs, List.filter_cons]
    by_cases hx : x.pc = Pc.done
    · simp [hx]; exact ih
    · by_cases hf : x.pc = Pc.awaitFetch
      · simp [hx, hf]; simpa [hf] using ih
      · simp [hx, hf]; omega

theorem fits_flagCount (o : Option Pc) (f : ExecutionSteps) (h : Fits o f) : flagCount f ≤ 1 := by
  cases o with
  | none => rcases h with h | h | h <;> subst h <;> decide
  | some p =>
    cases p with
    | awaitDelay => rcases h with h | h <;> subst h <;> decide
    | awaitFetch => rcases h with h | h <;> subst h <;> decide
    | awaitJson => rcases h with h | h <;> subst h <;> decide
    | done => exact h.elim

theorem oneRun_init : OneRun init :=
  Or.inl ⟨rfl, Or.inl rfl⟩

/-- What a resumed invocation knows in a state satisfying `OneRun`: it is the
only one that has not ended. -/
theorem oneRun_resumed (s : EditorState) (i : Nat) (t : RunTask) (hs : OneRun s)
    (hi : s.tasks.get? i = some t) (ht : t.pc ≠ Pc.done) :
    activePcs s.tasks = [t.pc] ∧ s.isRunning = true ∧ Fits (some t.pc) s.executionSteps := by
  rcases hs with ⟨h0, _⟩ | ⟨p, hp, hr, hf⟩
  · exact absurd h0 (activePcs_ne_nil s.tasks i t hi ht)
  · obtain ⟨e, _⟩ := activePcs_modify s.tasks i t p Pc.done hi ht hp
    subst e
    exact ⟨hp, hr, hf⟩

theorem oneRun_ended (s s2 : EditorState) (i : Nat) (t : RunTask)
    (hi : s.tasks.get? i = some t) (ht : t.pc ≠ Pc.done) (ha : activePcs s.tasks = [t.pc])
    (htasks : s2.tasks = s.tasks) (hf : Fits none s2.executionSteps) :
    OneRun (finallyBlock i s2) := by
  refine Or.inl ⟨?_, hf⟩
  have := (activePcs_modify s.tasks i t t.pc Pc.done hi ht ha).2
  simpa [finallyBlock, setPc, htasks] using this

theorem oneRun_moved (s s2 : EditorState) (i : Nat) (t : RunTask) (q : Pc) (hq : q ≠ Pc.done)
    (hi : s.tasks.get? i = some t) (ht : t.pc ≠ Pc.done) (ha : activePcs s.tasks = [t.pc])
    (htasks : s2.tasks = s.tasks) (hr : s2.isRunning = true)
    (hf : Fits (some q) s2.executionSteps) :
    OneRun (setPc i q s2) := by
  refine Or.inr ⟨q, ?_, hr, hf⟩
  have := (activePcs_modify s.tasks i t t.pc q hi ht ha).2
  simpa [setPc, htasks, hq] using this

theorem oneRun_step (s : EditorState) (e : Event) (hs : OneRun s) (he : plainEvent e = true) :
    OneRun (step s e) := by
  have frame : ∀ e2 : Event, touchesRun e2 = false → OneRun (step s e2) := by
    intro e2 h2
    obtain ⟨h_tasks, _, h_running, h_steps⟩ := sameRun_step s e2 h2
    unfold OneRun
    rw [h_tasks, h_running, h_steps]
    exact hs
  cases e with
  | projectLoaded p => exact frame (Event.projectLoaded p) rfl
  | editorChange c => exact frame (Event.editorChange c) rfl
  | clickRun =>
    simp only [step]
    split
    · exact hs
    · rename_i hr
      rcases hs with ⟨h0, _⟩ | ⟨p, _, hr2, _⟩
      · refine Or.inr ⟨Pc.awaitDelay, ?_, rfl, Or.inr rfl⟩
        simp [runProject, activePcs_append_done, h0]
      · exact absurd hr2 hr
  | keyCtrlB => simp [plainEvent] at he
  | keyCtrlF => exact frame (Event.keyCtrlF) rfl
  | selectionChanged t => exact frame (Event.selectionChanged t) rfl
  | clickSave => exact frame (Event.clickSave) rfl
  | saveSettled j r => exact frame (Event.saveSettled j r) rfl
  | loadSettled r => exact frame (Event.loadSettled r) rfl
  | keydown k =>
    apply frame
    cases hk : (k.ctrlKey && k.key == "b") with
    | false => simpa [touchesRun] using hk
    | true => simp [plainEvent, hk] at he
  | delayElapsed i =>
    simp only [step, resume]
    split
    · rename_i t hi
      split
      · rename_i hpc
        have ht : t.pc ≠ Pc.done := by rw [hpc]; decide
        obtain ⟨ha, hr, hf⟩ := oneRun_resumed s i t hs hi ht
        rw [hpc] at hf
        unfold afterDelay
        split
        · dsimp only
          refine oneRun_ended s _ i t hi ht ha ?_ ?_
          · rfl
          · rcases hf with hf | hf <;> simp [catchBlock, hf, idleSteps, Fits]
        · dsimp only
          refine oneRun_moved s _ i t Pc.awaitFetch (by decide) hi ht ha ?_ ?_ ?_
          · rfl
          · exact hr
          · rcases hf with hf | hf <;> simp [hf, idleSteps, Fits]
      · exact hs
    · exact hs
  | fetchSettled i r =>
    simp only [step, resume]
    split
    · rename_i t hi
      split
      · rename_i hpc
        have ht : t.pc ≠ Pc.done := by rw [hpc]; decide
        obtain ⟨ha, hr, hf⟩ := oneRun_resumed s i t hs hi ht
        rw [hpc] at hf
        unfold afterFetch
        split
        · refine oneRun_ended s _ i t hi ht ha ?_ ?_
          · rfl
          · rcases hf with hf | hf <;> simp [catchBlock, hf, idleSteps, Fits]
        · refine oneRun_moved s _ i t Pc.awaitJson (by decide) hi ht ha ?_ ?_ ?_
          · rfl
          · exact hr
          · rcases hf with hf | hf <;> simp [hf, idleSteps, Fits]
      · exact hs
    · exact hs
  | jsonSettled i r =>
    simp only [step, resume]
    split
    · rename_i t hi
      split
      · rename_i hpc
        have ht : t.pc ≠ Pc.done := by rw [hpc]; decide
        obtain ⟨ha, hr, hf⟩ := oneRun_resumed s i t hs hi ht
        rw [hpc] at hf
        rcases r with m | ⟨⟨_ | ⟨c, _ | out⟩⟩⟩
        · simp only [afterJson]
          refine oneRun_ended s _ i t hi ht ha ?_ ?_
          · rfl
          · rcases hf with hf | hf <;> simp [catchBlock, hf, idleSteps, Fits]
        · simp only [afterJson]
          refine oneRun_ended s _ i t hi ht ha ?_ ?_
          · rfl
          · rcases hf with hf | hf <;> simp [catchBlock, hf, idleSteps, Fits]
        · have hc : c = some 1 := by
            simpa [plainEvent, completesWithoutOutput] using he
          simp only [afterJson]
          refine oneRun_ended s _ i t hi ht ha ?_ ?_
          · simp [catchBlock, tasks_reportExit]
          · rcases hf with hf | hf <;>
              simp [catchBlock, reportExit, hc, hf, idleSteps, Fits]
        · simp only [afterJson]
          refine oneRun_ended s _ i t hi ht ha ?_ ?_
          · simp [tasks_reportExit]
          · by_cases hc : c = some 1 <;>
              rcases hf with hf | hf <;> simp [reportExit, hc, hf, idleSteps, Fits]
      · exact hs
    · exact hs
  | resetTimerFires =>
    simp only [step]
    split
    · exact hs
    · rcases hs with ⟨h0, _⟩ | ⟨p, hp, hr, hf⟩
      · exact Or.inl ⟨h0, Or.inl rfl⟩
      · refine Or.inr ⟨p, hp, hr, ?_⟩
        cases p with
        | awaitDelay => exact Or.inl rfl
        | awaitFetch => exact Or.inl rfl
        | awaitJson => exact Or.inl rfl
        | done => exact hf.elim

theorem oneRun_run (events : List Event) (s : EditorState) (hs : OneRun s)
    (he : ∀ e ∈ events, plainEvent e = true) : OneRun (run s events) := by
  induction events generalizing s with
  | nil => exact hs
  | cons e es ih =>
    simp only [run, List.foldl_cons]
    exact ih (step s e) (oneRun_step s e hs (he e (List.mem_cons_self e es)))
      (fun e2 h2 => he e2 (List.mem_cons_of_mem e h2))

/-- In a session whose runs are started by the Run buttons only and in which
no response completes without an output, every state reached has at most one
flag of `executionSteps` set and at most one request awaiting its response. -/
theorem plain_session_one_phase (events : List Event)
    (he : ∀ e ∈ events, plainEvent e = true) :
    flagCount (run init events).executionSteps ≤ 1 ∧ inFlight (run init events) ≤ 1 := by
  have h := oneRun_run events init oneRun_init he
  rcases h with ⟨h0, hf⟩ | ⟨p, hp, _, hf⟩
  · refine ⟨fits_flagCount none _ hf, ?_⟩
    have := inFlight_le_active (run init events).tasks
    rw [h0] at this
    exact Nat.le_trans this (by simp)
  · refine ⟨fits_flagCount (some p) _ hf, ?_⟩
    have := inFlight_le_active (run init events).tasks
    rw [hp] at this
    exact this

/-- A single run always ends with `compiling` and `running` false, and unless
its response completes without an output it ends with exactly one of
`completed` (progress 100) and `failed` (progress 50 or 75, never 100). -/
theorem soloRun_one_outcome (s : EditorState) (cl : Closure) (fetch : Settled Unit)
    (json : Settled ExecResult) (h : completesWithoutOutput json = false) :
    ((soloRun cl fetch json s).executionSteps
        = { compiling := false, running := false, completed := true, failed := false } ∧
      (soloRun cl fetch json s).loadingState.progress = 100) ∨
    ((soloRun cl fetch json s).executionSteps
        = { compiling := false, running := false, completed := false, failed := true } ∧
      ((soloRun cl fetch json s).loadingState.progress = 50 ∨
        (soloRun cl fetch json s).loadingState.progress = 75)) := by
  cases hd : cl.data with
  | none =>
    simp [soloRun, soloEvents, run, step, resume, runProject, afterDelay, afterFetch, afterJson,
      finallyBlock, catchBlock, setPc, hd, modify_append_length]
  | some d =>
    cases fetch with
    | rejected m =>
      simp [soloRun, soloEvents, run, step, resume, runProject, afterDelay, afterFetch,
        afterJson, finallyBlock, catchBlock, setPc, hd, modify_append_length]
    | fulfilled u =>
      cases json with
      | rejected m =>
        simp [soloRun, soloEvents, run, step, resume, runProject, afterDelay, afterFetch,
          afterJson, finallyBlock, catchBlock, setPc, hd, modify_append_length]
      | fulfilled result =>
        rcases result with ⟨_ | ⟨code, _ | output⟩⟩
        · simp [soloRun, soloEvents, run, step, resume, runProject, afterDelay, afterFetch,
            afterJson, finallyBlock, catchBlock, setPc, hd, modify_append_length]
        · have hc : code = some 1 := by simpa [completesWithoutOutput] using h
          simp [soloRun, soloEvents, run, step, resume, runProject, afterDelay, afterFetch,
            afterJson, finallyBlock, catchBlock, setPc, hd, modify_append_length, reportExit, hc]
        · by_cases hc : code = some 1 <;>
          simp [soloRun, soloEvents, run, step, resume, runProject, afterDelay, afterFetch,
            afterJson, finallyBlock, catchBlock, setPc, hd, modify_append_length, reportExit, hc]

/-! ## Output of a failed call: claim C11 -/

/-- C11, counterexample: a response that lacks `code` and has the output
`"hi"` does not end the run Failed: the run ends with the `completed` flag
alone, the error flag false, a success notification as the only one, and the
output published with kind `output`. -/
theorem missing_code_ends_completed :
    (soloRun (currentClosure loaded) (Settled.fulfilled ())
      (Settled.fulfilled { run := some { code := none, output := some "hi" } }) loaded
      ).executionSteps
      = { compiling := false, running := false, completed := true, failed := false } ∧
    (soloRun (currentClosure loaded) (Settled.fulfilled ())
      (Settled.fulfilled { run := some { code := none, output := some "hi" } }) loaded
      ).error = false ∧
    (soloRun (currentClosure loaded) (Settled.fulfilled ())
      (Settled.fulfilled { run := some { code := none, output := some "hi" } }) loaded
      ).toasts = [{ kind := ToastKind.success, message := "Code executed successfully!" }] ∧
    (soloRun (currentClosure loaded) (Settled.fulfilled ())
      (Settled.fulfilled { run := some { code := none, output := some "hi" } }) loaded
      ).output = Output.lines [{ line := 1, content := "hi", type := LineType.output }] ∧
    loaded.output = Output.text "" := by
  decide

/-- C11, amended: a run publishes an output exactly when it gets hold of an
output text.  When `fetch` or `response.json()` rejects, or the body has no
`run` or no text `output` (or the captured `data` is `null`), the published
output is what it was before the run, the `failed` flag and the error flag are
set and the last notification is an error.  When the body has a text
`output`, the formatted output is published whatever `code` is, also when
`code` is missing. -/
theorem output_published_when_received (s : EditorState) (cl : Closure)
    (fetch : Settled Unit) (json : Settled ExecResult) :
    (receivedOutput cl fetch json = none →
      (soloRun cl fetch json s).output = s.output ∧
      (soloRun cl fetch json s).executionSteps.failed = true ∧
      (soloRun cl fetch json s).error = true ∧
      ∃ message, (soloRun cl fetch json s).toasts.getLast?
        = some { kind := ToastKind.error, message := message }) ∧
    (∀ output code, receivedOutput cl fetch json = some (output, code) →
      (soloRun cl fetch json s).output = Output.lines (formattedOutput output code)) := by
  cases hd : cl.data with
  | none =>
    refine ⟨fun _ => ?_, fun o c h => by simp [receivedOutput, hd] at h⟩
    simp [soloRun, soloEvents, run, step, resume, runProject, afterDelay, afterFetch, afterJson,
      finallyBlock, catchBlock, setPc, hd, modify_append_length]
  | some d =>
    cases fetch with
    | rejected m =>
      refine ⟨fun _ => ?_, fun o c h => by simp [receivedOutput, hd] at h⟩
      simp [soloRun, soloEvents, run, step, resume, runProject, afterDelay, afterFetch,
        afterJson, finallyBlock, catchBlock, setPc, hd, modify_append_length]
    | fulfilled u =>
      cases json with
      | rejected m =>
        refine ⟨fun _ => ?_, fun o c h => by simp [receivedOutput, hd] at h⟩
        simp [soloRun, soloEvents, run, step, resume, runProject, afterDelay, afterFetch,
          afterJson, finallyBlock, catchBlock, setPc, hd, modify_append_length]
      | fulfilled result =>
        rcases result with ⟨_ | ⟨code, _ | output⟩⟩
        · refine ⟨fun _ => ?_, fun o c h => by simp [receivedOutput, hd] at h⟩
          simp [soloRun, soloEvents, run, step, resume, runProject, afterDelay, afterFetch,
            afterJson, finallyBlock, catchBlock, setPc, hd, modify_append_length]
        · refine ⟨fun _ => ?_, fun o c h => by simp [receivedOutput, hd] at h⟩
          by_cases hc : code = some 1 <;>
          simp [soloRun, soloEvents, run, step, resume, runProject, afterDelay, afterFetch,
            afterJson, finallyBlock, catchBlock, setPc, hd, modify_append_length, reportExit, hc]
        · refine ⟨fun h => by simp [receivedOutput, hd] at h, fun o c h => ?_⟩
          simp only [receivedOutput, hd, Option.some.injEq, Prod.mk.injEq] at h
          obtain ⟨h1, h2⟩ := h
          subst h1; subst h2
          cases u
          rw [soloRun_with_output s cl d code output hd]

/-! ## Run target of `runSelectedCode`: claims C12, C13, C14 -/

/-- C12: with no selection and no project loaded, the body built by
`runSelectedCode` has the default snippet as the content of its single file,
language `python` and version `3.9.0`, and that body is the request sent. -/
theorem default_run_target (s : EditorState) :
    selectionBody "" none
      = { language := "python"
          version := "3.9.0"
          files := [{ filename := none, content := "print('Hello World')" }] } ∧
    (selectionBody "" none).files.length = 1 ∧
    (runSelectedCode "" none s).requests = s.requests ++ [selectionBody "" none] ∧
    selectionBody init.selectedCode init.data = selectionBody "" none :=
  ⟨by decide, by decide, rfl, by decide⟩

/-- C13, counterexample: for a loaded project whose language is the empty
text, the run target of a non-empty selection has language `python`, not the
language of the project. -/
theorem empty_language_gets_default :
    (selectionBody "x = 1"
      (some { name := "demo", code := "", projLanguage := "", version := "3.10.0" })).language
      = "python" ∧
    (selectionBody "x = 1"
      (some { name := "demo", code := "", projLanguage := "python", version := "" })).version
      = "3.9.0" := by
  decide

/-- C13, amended: for a non-empty selection and a loaded project whose
language and version are non-empty, the body has the selection as content,
unchanged, and the language and version of the project.  Each default stands
in only for a value that is absent or empty: the content is the selection
whenever the selection is non-empty, whatever the project; language and
version are those of the project whenever they are non-empty, whatever the
selection. -/
theorem selection_run_target (selection : String) (d : Project)
    (hs : selection ≠ "") (hl : d.projLanguage ≠ "") (hv : d.version ≠ "") :
    selectionBody selection (some d)
      = { language := d.projLanguage
          version := d.version
          files := [{ filename := none, content := selection }] } ∧
    (∀ data, (selectionBody selection data).files
      = [{ filename := none, content := selection }]) ∧
    (∀ other, (selectionBody other (some d)).language = d.projLanguage ∧
      (selectionBody other (some d)).version = d.version) := by
  refine ⟨?_, fun data => ?_, fun other => ?_⟩ <;>
  simp [selectionBody, orText, hs, hl, hv]

/-- Witness of the amended C13 on the sample project and a one-line selection. -/
theorem selection_run_target_witness :
    selectionBody "x = 1" (some sampleProject)
      = { language := "python"
          version := "3.10.0"
          files := [{ filename := none, content := "x = 1" }] } :=
  (selection_run_target "x = 1" sampleProject (by decide) (by decide) (by decide)).1

theorem selectedCode_run_selections (texts : List String) (s : EditorState) :
    (run s (texts.map Event.selectionChanged)).selectedCode
      = ((texts.filter (fun t => decide (t ≠ ""))).getLast?).getD s.selectedCode := by
  induction texts generalizing s with
  | nil => rfl
  | cons t ts ih =>
    simp only [List.map_cons, run, List.foldl_cons]
    have h := ih (step s (Event.selectionChanged t))
    simp only [run] at h
    rw [h]
    by_cases ht : t = ""
    · simp [ht, step, onSelection]
    · simp only [step, onSelection, ht, if_false, List.filter_cons, ne_eq, not_false_eq_true,
        decide_True, if_true]
      cases hf : List.filter (fun t => decide (t ≠ "")) ts with
      | nil => simp
      | cons x xs => rw [List.getLast?_eq_getLast _ (List.cons_ne_nil x xs)]; rfl

/-- C14, counterexample: after a selection `"abc"` and then an empty
selection, the tracked selection is still `"abc"`, and the content of the run
target is `"abc"`, not the default snippet. -/
theorem empty_selection_keeps_earlier :
    (run init [Event.selectionChanged "abc", Event.selectionChanged ""]).selectedCode
      = "abc" ∧
    (selectionBody
      (run init [Event.selectionChanged "abc", Event.selectionChanged ""]).selectedCode
      none).files = [{ filename := none, content := "abc" }] := by
  decide

/-- C14, amended: after any sequence of selection notifications the tracked
selection is the last non-empty text among them, and what it was before when
there is none; a notification with an empty text changes nothing. -/
theorem selection_tracks_last_nonempty (texts : List String) (s : EditorState) :
    (run s (texts.map Event.selectionChanged)).selectedCode
      = ((texts.filter (fun t => decide (t ≠ ""))).getLast?).getD s.selectedCode ∧
    step s (Event.selectionChanged "") = s ∧
    (run init (texts.map Event.selectionChanged)).selectedCode
      = ((texts.filter (fun t => decide (t ≠ ""))).getLast?).getD "" :=
  ⟨selectedCode_run_selections texts s, rfl, selectedCode_run_selections texts init⟩

/-! ## Layout: claim C15 -/

theorem viewRun_invariant (events : List ViewEvent) (v : ViewState) (w : Nat)
    (hm : v.isMobile = belowBreakpoint w)
    (hv : v.mobileView = "editor" ∨ v.mobileView = "output") :
    (viewRun v events).isMobile = belowBreakpoint (widthAfter w events) ∧
    ((viewRun v events).mobileView = "editor" ∨ (viewRun v events).mobileView = "output") := by
  induction events generalizing v w with
  | nil => exact ⟨hm, hv⟩
  | cons e es ih =>
    simp only [viewRun, List.foldl_cons]
    cases e with
    | resize w2 => exact ih (viewStep v (ViewEvent.resize w2)) w2 rfl hv
    | toggleView =>
      refine ih (viewStep v ViewEvent.toggleView) w hm ?_
      simp only [viewStep]
      split
      · exact Or.inr rfl
      · exact Or.inl rfl
    | showEditor => exact ih (viewStep v ViewEvent.showEditor) w hm (Or.inl rfl)
    | showOutput => exact ih (viewStep v ViewEvent.showOutput) w hm (Or.inr rfl)

/-- C15: after any sequence of resizes and panel switches, `isMobile` is
decided by the current width alone, against the breakpoint 768, and
`mobileView` is `editor` or `output`.  Below 768 exactly one panel has the
class `flex` and the other `hidden`, the visible one being the one
`mobileView` names; from 768 on both panels have the class `flex`, whatever
`mobileView` is. -/
theorem layout_follows_width (innerWidth : Nat) (events : List ViewEvent) :
    (viewRun (viewInit innerWidth) events).isMobile
      = decide (widthAfter innerWidth events < 768) ∧
    ((viewRun (viewInit innerWidth) events).mobileView = "editor" ∨
      (viewRun (viewInit innerWidth) events).mobileView = "output") ∧
    (widthAfter innerWidth events < 768 →
      ((viewRun (viewInit innerWidth) events).mobileView = "editor" ∧
        editorPanelClass (viewRun (viewInit innerWidth) events) = "flex" ∧
        outputPanelClass (viewRun (viewInit innerWidth) events) = "hidden") ∨
      ((viewRun (viewInit innerWidth) events).mobileView = "output" ∧
        editorPanelClass (viewRun (viewInit innerWidth) events) = "hidden" ∧
        outputPanelClass (viewRun (viewInit innerWidth) events) = "flex")) ∧
    (768 ≤ widthAfter innerWidth events →
      editorPanelClass (viewRun (viewInit innerWidth) events) = "flex" ∧
      outputPanelClass (viewRun (viewInit innerWidth) events) = "flex") := by
  obtain ⟨hm, hv⟩ := viewRun_invariant events (viewInit innerWidth) innerWidth rfl (Or.inl rfl)
  refine ⟨hm, hv, fun hw => ?_, fun hw => ?_⟩
  · have hmob : (viewRun (viewInit innerWidth) events).isMobile = true := by
      rw [hm]; simp [belowBreakpoint, hw]
    rcases hv with h | h
    · exact Or.inl ⟨h, by simp [editorPanelClass, hmob, h], by simp [outputPanelClass, hmob, h]⟩
    · exact Or.inr ⟨h, by simp [editorPanelClass, hmob, h], by simp [outputPanelClass, hmob, h]⟩
  · have hmob : (viewRun (viewInit innerWidth) events).isMobile = false := by
      rw [hm]; simp [belowBreakpoint]; omega
    exact ⟨by simp [editorPanelClass, hmob], by simp [outputPanelClass, hmob]⟩

/-! ## Keyboard shortcuts: claims C16, C17 -/

/-- The fields the two effects depend on and the closures they register. -/
theorem resume_handlers (i : Nat) (pc : Pc) (k : RunTask → EditorState → EditorState)
    (s : EditorState)
    (hk : ∀ t s2, (k t s2).keyHandler = s2.keyHandler ∧ (k t s2).isFullScreen = s2.isFullScreen ∧
      (k t s2).saveHandler = s2.saveHandler ∧ (k t s2).code = s2.code) :
    (resume i pc k s).keyHandler = s.keyHandler ∧
    (resume i pc k s).isFullScreen = s.isFullScreen ∧
    (resume i pc k s).saveHandler = s.saveHandler ∧ (resume i pc k s).code = s.code := by
  unfold resume
  split
  · split
    · exact hk _ _
    · exact ⟨rfl, rfl, rfl, rfl⟩
  · exact ⟨rfl, rfl, rfl, rfl⟩

theorem afterDelay_handlers (i : Nat) (t : RunTask) (s : EditorState) :
    (afterDelay i t s).keyHandler = s.keyHandler ∧
    (afterDelay i t s).isFullScreen = s.isFullScreen ∧
    (afterDelay i t s).saveHandler = s.saveHandler ∧ (afterDelay i t s).code = s.code := by
  unfold afterDelay
  split <;> exact ⟨rfl, rfl, rfl, rfl⟩

theorem afterFetch_handlers (i : Nat) (r : Settled Unit) (s : EditorState) :
    (afterFetch i r s).keyHandler = s.keyHandler ∧
    (afterFetch i r s).isFullScreen = s.isFullScreen ∧
    (afterFetch i r s).saveHandler = s.saveHandler ∧ (afterFetch i r s).code = s.code := by
  unfold afterFetch
  split <;> exact ⟨rfl, rfl, rfl, rfl⟩

theorem reportExit_handlers (code : Option Int) (s : EditorState) :
    (reportExit code s).keyHandler = s.keyHandler ∧
    (reportExit code s).isFullScreen = s.isFullScreen ∧
    (reportExit code s).saveHandler = s.saveHandler ∧ (reportExit code s).code = s.code := by
  unfold reportExit
  split <;> exact ⟨rfl, rfl, rfl, rfl⟩

theorem afterJson_handlers (i : Nat) (r : Settled ExecResult) (s : EditorState) :
    (afterJson i r s).keyHandler = s.keyHandler ∧
    (afterJson i r s).isFullScreen = s.isFullScreen ∧
    (afterJson i r s).saveHandler = s.saveHandler ∧ (afterJson i r s).code = s.code := by
  rcases r with m | ⟨⟨_ | ⟨c, _ | out⟩⟩⟩
  · exact ⟨rfl, rfl, rfl, rfl⟩
  · exact ⟨rfl, rfl, rfl, rfl⟩
  · exact reportExit_handlers c s
  · exact reportExit_handlers c s

theorem afterSave_handlers (i : Nat) (t : SaveTask) (r : Settled SaveResponse)
    (s : EditorState) :
    (afterSave i t r s).keyHandler = s.keyHandler ∧
    (afterSave i t r s).isFullScreen = s.isFullScreen ∧
    (afterSave i t r s).saveHandler = s.saveHandler ∧ (afterSave i t r s).code = s.code := by
  unfold afterSave
  split
  · exact ⟨rfl, rfl, rfl, rfl⟩
  · split <;> exact ⟨rfl, rfl, rfl, rfl⟩

theorem synced_refreshKeyHandler (before s : EditorState)
    (hb : before.keyHandler.isFullScreen = before.isFullScreen)
    (hk : s.keyHandler = before.keyHandler) (hs : s.saveHandler.code = s.code) :
    Synced (refreshKeyHandler before s) := by
  unfold refreshKeyHandler
  split
  · rename_i h
    exact ⟨by rw [hk, hb, h], hs⟩
  · exact ⟨rfl, hs⟩

theorem synced_refreshSaveHandler (before s : EditorState)
    (hb : before.saveHandler.code = before.code)
    (hk : s.saveHandler = before.saveHandler)
    (hf : s.keyHandler.isFullScreen = s.isFullScreen) :
    Synced (refreshSaveHandler before s) := by
  unfold refreshSaveHandler
  split
  · rename_i h
    exact ⟨hf, by rw [hk, hb, h]⟩
  · exact ⟨hf, rfl⟩

theorem handleKeyPress_frame (e : KeyEvent) (s : EditorState) :
    (handleKeyPress e s).2.keyHandler = s.keyHandler ∧
    (handleKeyPress e s).2.saveHandler = s.saveHandler ∧
    (handleKeyPress e s).2.code = s.code := by
  unfold handleKeyPress
  split
  · exact ⟨rfl, rfl, rfl⟩
  · split
    · exact ⟨rfl, rfl, rfl⟩
    · split <;> exact ⟨rfl, rfl, rfl⟩

/-- Every event keeps the two listeners in step with the values their effects
depend on. -/
theorem synced_step (s : EditorState) (e : Event) (h : Synced s) : Synced (step s e) := by
  obtain ⟨hf, hc⟩ := h
  have keep : ∀ s2 : EditorState, (s2.keyHandler = s.keyHandler ∧
      s2.isFullScreen = s.isFullScreen ∧ s2.saveHandler = s.saveHandler ∧ s2.code = s.code) →
      Synced s2 := by
    intro s2 h2
    exact ⟨by rw [h2.1, h2.2.1]; exact hf, by rw [h2.2.2.1, h2.2.2.2]; exact hc⟩
  cases e with
  | projectLoaded p => exact synced_refreshSaveHandler s _ hc rfl hf
  | editorChange c => exact synced_refreshSaveHandler s _ hc rfl hf
  | clickRun =>
    simp only [step]
    split
    · exact ⟨hf, hc⟩
    · exact keep _ ⟨rfl, rfl, rfl, rfl⟩
  | keyCtrlB => exact keep _ ⟨rfl, rfl, rfl, rfl⟩
  | keyCtrlF => exact synced_refreshKeyHandler s _ hf rfl hc
  | delayElapsed i => exact keep _ (resume_handlers i _ _ s (afterDelay_handlers i))
  | fetchSettled i r =>
    exact keep _ (resume_handlers i _ _ s (fun _ s2 => afterFetch_handlers i r s2))
  | jsonSettled i r =>
    exact keep _ (resume_handlers i _ _ s (fun _ s2 => afterJson_handlers i r s2))
  | resetTimerFires =>
    simp only [step]
    split
    · exact ⟨hf, hc⟩
    · exact keep _ ⟨rfl, rfl, rfl, rfl⟩
  | selectionChanged t =>
    simp only [step, onSelection]
    split
    · exact ⟨hf, hc⟩
    · exact keep _ ⟨rfl, rfl, rfl, rfl⟩
  | keydown k =>
    simp only [step]
    apply synced_refreshKeyHandler s _ hf
    · unfold keydownListeners
      split
      · rw [(handleKeyPress_frame k _).1, (handleSaveShortcut_frame k s).1]
      · rw [(handleSaveShortcut_frame k _).1, (handleKeyPress_frame k s).1]
    · unfold keydownListeners
      split
      · rw [(handleKeyPress_frame k _).2.1, (handleKeyPress_frame k _).2.2,
          (handleSaveShortcut_frame k s).2.2.1, (handleSaveShortcut_frame k s).2.2.2.1]
        exact hc
      · rw [(handleSaveShortcut_frame k _).2.2.1, (handleSaveShortcut_frame k _).2.2.2.1,
          (handleKeyPress_frame k s).2.1, (handleKeyPress_frame k s).2.2]
        exact hc
  | clickSave => exact keep _ ⟨rfl, rfl, rfl, rfl⟩
  | saveSettled i r =>
    simp only [step]
    split
    · split
      · exact keep _ (afterSave_handlers i _ r s)
      · exact ⟨hf, hc⟩
    · exact ⟨hf, hc⟩
  | loadSettled r =>
    refine synced_refreshSaveHandler s _ hc ?_ ?_
    · unfold afterLoad
      split
      · rfl
      · split
        · split <;> rfl
        · rfl
    · unfold afterLoad
      split
      · exact hf
      · split
        · split <;> exact hf
        · exact hf

theorem synced_reachable (s : EditorState) (h : Reachable s) : Synced s := by
  obtain ⟨events, rfl⟩ := h
  have gen : ∀ (evs : List Event) (s0 : EditorState), Synced s0 → Synced (run s0 evs) := by
    intro evs
    induction evs with
    | nil => exact fun _ h0 => h0
    | cons e es ih =>
      intro s0 h0
      simp only [run, List.foldl_cons]
      exact ih (step s0 e) (synced_step s0 e h0)
  exact gen events init ⟨rfl, rfl⟩

/-- C16: in every reachable state `handleKeyPress` dispatches by the key.
With Ctrl held, `s` calls `handleSave` (one more save request), `b` calls
`runProject` (one more invocation) and `f` flips `isFullScreen`; each of the
three calls `preventDefault`.  On any other key event it does nothing and
does not call `preventDefault`, and the event as a whole leaves the state as
it was. -/
theorem handleKeyPress_dispatch (s : EditorState) (e : KeyEvent) (h : Reachable s) :
    (e.ctrlKey = true → e.key = "s" →
      handleKeyPress e s = (true, handleSave s.keyHandler s) ∧
      (handleKeyPress e s).2.saveRequests.length = s.saveRequests.length + 1) ∧
    (e.ctrlKey = true → e.key = "b" →
      handleKeyPress e s = (true, runProject s.keyHandler s) ∧
      (handleKeyPress e s).2.tasks.length = s.tasks.length + 1) ∧
    (e.ctrlKey = true → e.key = "f" →
      handleKeyPress e s = (true, { s with isFullScreen := !s.isFullScreen })) ∧
    ((e.ctrlKey = false ∨ (e.key ≠ "s" ∧ e.key ≠ "b" ∧ e.key ≠ "f")) →
      handleKeyPress e s = (false, s) ∧ step s (Event.keydown e) = s) := by
  have hsync := (synced_reachable s h).1
  refine ⟨fun hc hk => ?_, fun hc hk => ?_, fun hc hk => ?_, fun hother => ?_⟩
  · have h1 : handleKeyPress e s = (true, handleSave s.keyHandler s) := by
      simp [handleKeyPress, hc, hk]
    exact ⟨h1, by rw [h1]; simp [handleSave, saveProject]⟩
  · have h1 : handleKeyPress e s = (true, runProject s.keyHandler s) := by
      simp [handleKeyPress, hc, hk]
    exact ⟨h1, by rw [h1]; simp [runProject]⟩
  · simp [handleKeyPress, hc, hk, hsync]
  · have hs : (e.ctrlKey && e.key == "s") = false := by
      rcases hother with h0 | h0
      · simp [h0]
      · simp [h0.1]
    have hb : (e.ctrlKey && e.key == "b") = false := by
      rcases hother with h0 | h0
      · simp [h0]
      · simp [h0.2.1]
    have hf : (e.ctrlKey && e.key == "f") = false := by
      rcases hother with h0 | h0
      · simp [h0]
      · simp [h0.2.2]
    have h1 : ∀ s2 : EditorState, handleKeyPress e s2 = (false, s2) := by
      intro s2
      unfold handleKeyPress
      rw [hs, hb, hf]; rfl
    have h2 : ∀ s2 : EditorState, handleSaveShortcut e s2 = (false, s2) := by
      intro s2
      unfold handleSaveShortcut
      rw [hs]; rfl
    refine ⟨h1 s, ?_⟩
    simp [step, keydownListeners, h1, h2, refreshKeyHandler]

/-- Witness of C16: Ctrl+F on the loaded sample session. -/
theorem handleKeyPress_dispatch_witness :
    handleKeyPress (withCtrl "f") loaded
      = (true, { loaded with isFullScreen := !loaded.isFullScreen }) :=
  (handleKeyPress_dispatch loaded (withCtrl "f")
    ⟨[Event.projectLoaded sampleProject], rfl⟩).2.2.1 rfl rfl

/-- C17, the code at the failing input: a project is loaded and the text is
edited, so the buffer holds `"print(2)"` and `data` holds the project.
Ctrl+B then starts a run whose closure holds the empty text and no project:
no request is sent and the run fails.  Ctrl+S sends two save requests, one of
them with the empty text.  Once Ctrl+F has registered the listener again,
Ctrl+B runs the text and the project of that moment. -/
theorem shortcuts_act_on_stale_closure :
    (run init [Event.projectLoaded sampleProject, Event.editorChange (some "print(2)")]).code
      = "print(2)" ∧
    (run init [Event.projectLoaded sampleProject, Event.editorChange (some "print(2)")]).data
      = some sampleProject ∧
    (run init [Event.projectLoaded sampleProject, Event.editorChange (some "print(2)"),
      Event.keydown (withCtrl "b")]).tasks
      = [{ pc := Pc.awaitDelay, code := "", data := none }] ∧
    (run init [Event.projectLoaded sampleProject, Event.editorChange (some "print(2)"),
      Event.keydown (withCtrl "b"), Event.delayElapsed 0]).requests = [] ∧
    (run init [Event.projectLoaded sampleProject, Event.editorChange (some "print(2)"),
      Event.keydown (withCtrl "b"), Event.delayElapsed 0]).executionSteps
      = { compiling := false, running := false, completed := false, failed := true } ∧
    (run init [Event.projectLoaded sampleProject, Event.editorChange (some "print(2)"),
      Event.keydown (withCtrl "s")]).saveRequests
      = [{ token := none, projectId := "", code := "" },
         { token := none, projectId := "", code := "print(2)" }] ∧
    (run init [Event.projectLoaded sampleProject, Event.editorChange (some "print(2)"),
      Event.keydown (withCtrl "f"), Event.keydown (withCtrl "b")]).tasks
      = [{ pc := Pc.awaitDelay, code := "print(2)", data := some sampleProject }] := by
  decide

/-- The listener `handleSaveShortcut`, whose effect depends on `code`, always
holds the current text: in every reachable state the save it sends on Ctrl+S
carries the trimmed buffer. -/
theorem saveShortcut_sends_current_text (s : EditorState) (h : Reachable s) :
    (handleSaveShortcut (withCtrl "s") s).2.saveRequests
      = s.saveRequests ++ [saveBody s.code s] := by
  have hc := (synced_reachable s h).2
  simp [handleSaveShortcut, withCtrl, saveProject, hc]

/-! ## Saving: claims C18, C19, C20 -/

theorem pending_modify (l : List SaveTask) (i : Nat) (t : SaveTask)
    (hi : l.get? i = some t) (hp : t.pending = true) :
    ((l.modify (fun t => { t with pending := false }) i).filter (fun t => t.pending)).length + 1
      = (l.filter (fun t => t.pending)).length := by
  induction l generalizing i with
  | nil => simp at hi
  | cons x xs ih =>
    cases i with
    | zero =>
      simp at hi
      subst hi
      simp [List.modify, List.modifyTailIdx, List.modifyHead, List.filter_cons, hp]
    | succ i =>
      have hi2 : xs.get? i = some t := by simpa using hi
      have := ih i hi2
      simp only [List.modify_succ_cons, List.filter_cons]
      split
      · simp only [List.length_cons]; omega
      · exact this

theorem saves_afterSave (i : Nat) (t : SaveTask) (r : Settled SaveResponse)
    (s : EditorState) :
    (afterSave i t r s).saves = s.saves.modify (fun t => { t with pending := false }) i := by
  unfold afterSave
  split
  · rfl
  · split <;> rfl

/-- C18, counterexample: two clicks on Save leave two save requests in
flight; when the first settles, `isSaving` is false while the second is still
in flight.  A single Ctrl+S sends two save requests. -/
theorem two_saves_in_flight :
    savesInFlight (run loaded [Event.clickSave, Event.clickSave]) = 2 ∧
    savesInFlight (run loaded [Event.clickSave, Event.clickSave,
      Event.saveSettled 0 (Settled.fulfilled { success := true, msg := none })]) = 1 ∧
    (run loaded [Event.clickSave, Event.clickSave,
      Event.saveSettled 0 (Settled.fulfilled { success := true, msg := none })]).isSaving
      = false ∧
    (step loaded (Event.keydown (withCtrl "s"))).saveRequests.length = 2 ∧
    savesInFlight (step loaded (Event.keydown (withCtrl "s"))) = 2 := by
  decide

/-- C18, amended: saves are not limited to one in flight.  A click on Save
sends one save request in every state, whether or not others are in flight,
and sets `isSaving`; a save that settles takes one off the number in flight,
and when it was started by `handleSave` it clears `isSaving`, whatever else is
in flight. -/
theorem save_click_always_sends (s : EditorState) :
    (step s Event.clickSave).saveRequests = s.saveRequests ++ [saveBody s.code s] ∧
    savesInFlight (step s Event.clickSave) = savesInFlight s + 1 ∧
    (step s Event.clickSave).isSaving = true ∧
    (∀ i t r, s.saves.get? i = some t → t.pending = true →
      savesInFlight (step s (Event.saveSettled i r)) + 1 = savesInFlight s ∧
      (t.caller = SaveCaller.handleSave →
        (step s (Event.saveSettled i r)).isSaving = false)) := by
  refine ⟨rfl, ?_, rfl, ?_⟩
  · simp [step, handleSave, saveProject, savesInFlight, currentClosure, List.filter_append]
  · intro i t r hi hp
    simp only [step, hi, hp, if_true]
    refine ⟨?_, fun hc => ?_⟩
    · simp only [savesInFlight, saves_afterSave]
      exact pending_modify s.saves i t hi hp
    · unfold afterSave
      rw [hc]
      dsimp only
      split <;> rfl

/-- The call `text.trim()` removes white space at both ends and nothing else:
the text is the trimmed text between two runs of white space, and the trimmed
text neither starts nor ends with white space. -/
theorem jsTrim_spec (text : String) :
    ∃ pre post, text.data = pre ++ (jsTrim text).data ++ post ∧
      pre.all isJsWhiteSpace = true ∧ post.all isJsWhiteSpace = true ∧
      (∀ c, (jsTrim text).data.head? = some c → isJsWhiteSpace c = false) ∧
      (∀ c, (jsTrim text).data.getLast? = some c → isJsWhiteSpace c = false) := by
  have hsplit : (text.data.dropWhile isJsWhiteSpace) =
      ((text.data.dropWhile isJsWhiteSpace).reverse.dropWhile isJsWhiteSpace).reverse ++
        ((text.data.dropWhile isJsWhiteSpace).reverse.takeWhile isJsWhiteSpace).reverse := by
    rw [← List.reverse_append, List.takeWhile_append_dropWhile, List.reverse_reverse]
  refine ⟨text.data.takeWhile isJsWhiteSpace,
    ((text.data.dropWhile isJsWhiteSpace).reverse.takeWhile isJsWhiteSpace).reverse,
    ?_, ?_, ?_, ?_, ?_⟩
  · simp only [jsTrim]
    rw [List.append_assoc, ← hsplit, List.takeWhile_append_dropWhile]
  · exact List.all_takeWhile
  · rw [List.all_reverse]; exact List.all_takeWhile
  · intro c hc
    simp only [jsTrim] at hc
    have h1 := List.head?_dropWhile_not isJsWhiteSpace text.data
    cases hb : ((text.data.dropWhile isJsWhiteSpace).reverse.dropWhile isJsWhiteSpace).reverse with
    | nil => rw [hb] at hc; simp at hc
    | cons x xs =>
      rw [hb] at hc hsplit
      rw [hsplit] at h1
      simp only [List.cons_append, List.head?_cons, Option.some.injEq] at hc h1
      subst hc
      simpa using h1
  · intro c hc
    simp only [jsTrim, List.getLast?_reverse] at hc
    have h1 := List.head?_dropWhile_not isJsWhiteSpace
      (text.data.dropWhile isJsWhiteSpace).reverse
    rw [hc] at h1
    simpa using h1

/-- C19, counterexample: with the buffer `"  print(1)\n"` a click on Save
sends the text `"print(1)"`; the buffer keeps its white space. -/
theorem save_drops_outer_whitespace :
    (run init [Event.editorChange (some "  print(1)\n"), Event.clickSave]).saveRequests
      = [{ token := none, projectId := "", code := "print(1)" }] ∧
    (run init [Event.editorChange (some "  print(1)\n"), Event.clickSave]).code
      = "  print(1)\n" := by
  decide

/-- C19, amended: the save request built by `saveProject` carries the session
token, the project id and, as its code, the captured buffer text with the
white space at its two ends removed: the text is the code sent between two
runs of white space, and the code sent neither starts nor ends with white
space.  A click on Save sends the current buffer so trimmed and leaves the
buffer as it is. -/
theorem save_body_is_trimmed (s : EditorState) (cl : Closure) (caller : SaveCaller) :
    (saveProject cl caller s).saveRequests
      = s.saveRequests ++
        [{ token := s.token, projectId := s.projectId, code := jsTrim cl.code }] ∧
    (step s Event.clickSave).saveRequests
      = s.saveRequests ++
        [{ token := s.token, projectId := s.projectId, code := jsTrim s.code }] ∧
    (step s Event.clickSave).code = s.code ∧
    (∃ pre post, cl.code.data = pre ++ (jsTrim cl.code).data ++ post ∧
      pre.all isJsWhiteSpace = true ∧ post.all isJsWhiteSpace = true ∧
      (∀ c, (jsTrim cl.code).data.head? = some c → isJsWhiteSpace c = false) ∧
      (∀ c, (jsTrim cl.code).data.getLast? = some c → isJsWhiteSpace c = false)) :=
  ⟨rfl, rfl, rfl, jsTrim_spec cl.code⟩

/-- C20, the code at the failing input: after a load, Ctrl+S sends two save
requests, the first by `handleSave` and the second by `handleSaveShortcut`.
When the second is answered with `success: false` and a message, or when its
transport fails, no notification is raised; the same answer to the first one
raises the error notification with the message of the backend and clears
`isSaving`.  When the second fails and the first succeeds, the only
notification is the one of success. -/
theorem dropped_save_failure_is_silent :
    (step loaded (Event.keydown (withCtrl "s"))).saves
      = [{ caller := SaveCaller.handleSave, pending := true },
         { caller := SaveCaller.handleSaveShortcut, pending := true }] ∧
    (run loaded [Event.keydown (withCtrl "s"),
      Event.saveSettled 1 (Settled.fulfilled { success := false, msg := some "Invalid token" })]
      ).toasts = [] ∧
    savesInFlight (run loaded [Event.keydown (withCtrl "s"),
      Event.saveSettled 1 (Settled.fulfilled { success := false, msg := some "Invalid token" })])
      = 1 ∧
    (run loaded [Event.keydown (withCtrl "s"),
      Event.saveSettled 1 (Settled.rejected "Failed to fetch")]).toasts = [] ∧
    (run loaded [Event.keydown (withCtrl "s"),
      Event.saveSettled 0 (Settled.fulfilled { success := false, msg := some "Invalid token" })]
      ).toasts = [{ kind := ToastKind.error, message := "Invalid token" }] ∧
    (run loaded [Event.keydown (withCtrl "s"),
      Event.saveSettled 0 (Settled.fulfilled { success := false, msg := some "Invalid token" })]
      ).isSaving = false ∧
    (run loaded [Event.keydown (withCtrl "s"),
      Event.saveSettled 1 (Settled.fulfilled { success := false, msg := some "Invalid token" }),
      Event.saveSettled 0 (Settled.fulfilled { success := true, msg := none })]).toasts
      = [{ kind := ToastKind.success, message := "Project saved successfully!" }] := by
  decide

/-- A save started by `handleSave` fails exactly when `fetch` or `res.json()`
rejects or the body has a falsy `success`; every such failure raises one error
notification, with the message of the backend when there is one, a success
raises the success notification, and either way `isSaving` is cleared. -/
theorem awaited_save_settles (s : EditorState) (i : Nat) (t : SaveTask)
    (r : Settled SaveResponse) (hi : s.saves.get? i = some t) (hp : t.pending = true)
    (hc : t.caller = SaveCaller.handleSave) :
    (step s (Event.saveSettled i r)).isSaving = false ∧
    (saveError r = none →
      (step s (Event.saveSettled i r)).toasts = s.toasts ++
        [{ kind := ToastKind.success, message := "Project saved successfully!" }]) ∧
    (∀ message, saveError r = some message →
      (step s (Event.saveSettled i r)).toasts = s.toasts ++
        [{ kind := ToastKind.error
           message := if message = "" then "Failed to save code" else message }]) ∧
    (∀ msg, saveError (Settled.fulfilled { success := false, msg := some msg }) = some msg) ∧
    (∀ message, saveError (Settled.rejected message) = some message) ∧
    (∀ msg, saveError (Settled.fulfilled { success := true, msg := msg }) = none) := by
  simp only [step, hi, hp, if_true]
  refine ⟨?_, fun h => ?_, fun m h => ?_, fun _ => rfl, fun _ => rfl, fun _ => rfl⟩
  · unfold afterSave
    rw [hc]
    dsimp only
    split <;> rfl
  · unfold afterSave
    rw [hc, h]
  · unfold afterSave
    rw [hc, h]

/-! ## The buffer and the error flag: claims C21, C22 -/

theorem code_refreshKeyHandler (before s : EditorState) :
    (refreshKeyHandler before s).code = s.code := by
  unfold refreshKeyHandler
  split <;> rfl

theorem code_refreshSaveHandler (before s : EditorState) :
    (refreshSaveHandler before s).code = s.code := by
  unfold refreshSaveHandler
  split <;> rfl

theorem code_afterLoad_failed (r : Settled LoadResponse) (s : EditorState)
    (h : changesBuffer (Event.loadSettled r) = false) : (afterLoad r s).code = s.code := by
  rcases r with m | ⟨⟨_ | _, _ | p, msg⟩⟩
  · rfl
  · rfl
  · rfl
  · rfl
  · simp [changesBuffer] at h

theorem code_step (s : EditorState) (e : Event) (h : changesBuffer e = false) :
    (step s e).code = s.code := by
  cases e with
  | projectLoaded p => simp [changesBuffer] at h
  | editorChange c => simp [changesBuffer] at h
  | clickRun =>
    simp only [step]
    split <;> rfl
  | keyCtrlB => rfl
  | keyCtrlF => exact code_refreshKeyHandler _ _
  | delayElapsed i => exact (resume_handlers i _ _ s (afterDelay_handlers i)).2.2.2
  | fetchSettled i r =>
    exact (resume_handlers i _ _ s (fun _ s2 => afterFetch_handlers i r s2)).2.2.2
  | jsonSettled i r =>
    exact (resume_handlers i _ _ s (fun _ s2 => afterJson_handlers i r s2)).2.2.2
  | resetTimerFires =>
    simp only [step]
    split <;> rfl
  | selectionChanged t =>
    simp only [step, onSelection]
    split <;> rfl
  | keydown k =>
    simp only [step]
    rw [code_refreshKeyHandler]
    unfold keydownListeners
    split
    · rw [(handleKeyPress_frame k _).2.2, (handleSaveShortcut_frame k s).2.2.2.1]
    · rw [(handleSaveShortcut_frame k _).2.2.2.1, (handleKeyPress_frame k s).2.2]
  | clickSave => rfl
  | saveSettled i r =>
    simp only [step]
    split
    · split
      · exact (afterSave_handlers i _ r s).2.2.2
      · rfl
    · rfl
  | loadSettled r =>
    simp only [step]
    rw [code_refreshSaveHandler]
    exact code_afterLoad_failed r s h

theorem code_run (events : List Event) (s : EditorState)
    (h : ∀ e ∈ events, changesBuffer e = false) : (run s events).code = s.code := by
  induction events generalizing s with
  | nil => rfl
  | cons e es ih =>
    simp only [run, List.foldl_cons]
    have h1 := ih (step s e) (fun e2 h2 => h e2 (List.mem_cons_of_mem e h2))
    simp only [run] at h1
    rw [h1]
    exact code_step s e (h e (List.mem_cons_self e es))

/-- C21: the buffer is written by two events only.  A change reported by the
editing widget sets it to the reported text, and a load answered with success
sets it to the code of the returned project.  A load that is rejected or
answered without success, and every other event (clicks on Run and Save, key
events, the steps of a run, a settled save, a reset, a selection), leaves the
buffer as it was, one by one and in any sequence; so do the call and the end
of `runSelectedCode`. -/
theorem buffer_written_by_edit_and_load (s : EditorState) :
    (∀ newCode, (step s (Event.editorChange newCode)).code = newCode.getD "") ∧
    (∀ p msg, (step s (Event.loadSettled
        (Settled.fulfilled { success := true, project := some p, msg := msg }))).code = p.code ∧
      step s (Event.loadSettled
        (Settled.fulfilled { success := true, project := some p, msg := msg }))
        = step s (Event.projectLoaded p)) ∧
    (∀ message, (step s (Event.loadSettled (Settled.rejected message))).code = s.code) ∧
    (∀ project msg, (step s (Event.loadSettled
        (Settled.fulfilled { success := false, project := project, msg := msg }))).code
        = s.code) ∧
    (∀ e, changesBuffer e = false → (step s e).code = s.code) ∧
    (∀ events, (∀ e ∈ events, changesBuffer e = false) → (run s events).code = s.code) ∧
    (∀ selectedCode data, (runSelectedCode selectedCode data s).code = s.code) ∧
    (∀ r, (afterSelectionRun r s).code = s.code) := by
  refine ⟨fun c => ?_, fun p msg => ⟨?_, rfl⟩, fun m => ?_, fun pr msg => ?_,
    fun e h => code_step s e h, fun evs h => code_run evs s h, fun _ _ => rfl, fun r => ?_⟩
  · simp only [step]
    rw [code_refreshSaveHandler]
  · simp only [step]
    rw [code_refreshSaveHandler]
    rfl
  · exact code_step s _ rfl
  · exact code_step s _ (by cases pr <;> rfl)
  · rcases r with m | ⟨⟨_ | run⟩⟩ <;> rfl

theorem error_resume (i : Nat) (pc : Pc) (k : RunTask → EditorState → EditorState)
    (s : EditorState) (hk : ∀ t s2, s2.error = true → (k t s2).error = true)
    (h : s.error = true) : (resume i pc k s).error = true := by
  unfold resume
  split
  · split
    · exact hk _ _ h
    · exact h
  · exact h

theorem error_afterDelay (i : Nat) (t : RunTask) (s : EditorState) (h : s.error = true) :
    (afterDelay i t s).error = true := by
  unfold afterDelay
  split
  · rfl
  · exact h

theorem error_afterFetch (i : Nat) (r : Settled Unit) (s : EditorState) (h : s.error = true) :
    (afterFetch i r s).error = true := by
  unfold afterFetch
  split
  · rfl
  · exact h

theorem error_reportExit (code : Option Int) (s : EditorState) (h : s.error = true) :
    (reportExit code s).error = true := by
  unfold reportExit
  split
  · rfl
  · exact h

theorem error_afterJson (i : Nat) (r : Settled ExecResult) (s : EditorState)
    (h : s.error = true) : (afterJson i r s).error = true := by
  rcases r with m | ⟨⟨_ | ⟨c, _ | out⟩⟩⟩
  · rfl
  · rfl
  · rfl
  · exact error_reportExit c s h

theorem error_afterSave (i : Nat) (t : SaveTask) (r : Settled SaveResponse)
    (s : EditorState) : (afterSave i t r s).error = s.error := by
  unfold afterSave
  split
  · rfl
  · split <;> rfl

theorem error_afterLoad (r : Settled LoadResponse) (s : EditorState) :
    (afterLoad r s).error = s.error := by
  unfold afterLoad
  split
  · rfl
  · split
    · split <;> rfl
    · rfl

theorem error_refreshKeyHandler (before s : EditorState) :
    (refreshKeyHandler before s).error = s.error := by
  unfold refreshKeyHandler
  split <;> rfl

theorem error_refreshSaveHandler (before s : EditorState) :
    (refreshSaveHandler before s).error = s.error := by
  unfold refreshSaveHandler
  split <;> rfl

theorem error_handleSaveShortcut (e : KeyEvent) (s : EditorState) :
    (handleSaveShortcut e s).2.error = s.error := by
  unfold handleSaveShortcut
  split <;> rfl

theorem error_handleKeyPress (e : KeyEvent) (s : EditorState) :
    (handleKeyPress e s).2.error = s.error := by
  unfold handleKeyPress
  split
  · rfl
  · split
    · rfl
    · split <;> rfl

/-- No event clears the error flag. -/
theorem error_step (s : EditorState) (e : Event) (h : s.error = true) :
    (step s e).error = true := by
  cases e with
  | projectLoaded p =>
    simp only [step]
    rw [error_refreshSaveHandler]; exact h
  | editorChange c =>
    simp only [step]
    rw [error_refreshSaveHandler]; exact h
  | clickRun =>
    simp only [step]
    split <;> exact h
  | keyCtrlB => exact h
  | keyCtrlF =>
    simp only [step]
    rw [error_refreshKeyHandler]; exact h
  | delayElapsed i => exact error_resume i _ _ s (error_afterDelay i) h
  | fetchSettled i r => exact error_resume i _ _ s (fun _ s2 => error_afterFetch i r s2) h
  | jsonSettled i r => exact error_resume i _ _ s (fun _ s2 => error_afterJson i r s2) h
  | resetTimerFires =>
    simp only [step]
    split <;> exact h
  | selectionChanged t =>
    simp only [step, onSelection]
    split <;> exact h
  | keydown k =>
    simp only [step]
    rw [error_refreshKeyHandler]
    unfold keydownListeners
    split
    · rw [error_handleKeyPress, error_handleSaveShortcut]; exact h
    · rw [error_handleSaveShortcut, error_handleKeyPress]; exact h
  | clickSave => exact h
  | saveSettled i r =>
    simp only [step]
    split
    · split
      · rw [error_afterSave]; exact h
      · exact h
    · exact h
  | loadSettled r =>
    simp only [step]
    rw [error_refreshSaveHandler, error_afterLoad]; exact h

theorem error_run (events : List Event) (s : EditorState) (h : s.error = true) :
    (run s events).error = true := by
  induction events generalizing s with
  | nil => exact h
  | cons e es ih =>
    simp only [run, List.foldl_cons]
    exact ih (step s e) (error_step s e h)

/-- C22: `runProject` never clears the error flag.  A run that does not end
with the `failed` flag, so every run that ends Completed, leaves the flag as
it was before the run; a flag that is set stays set through every run and
through every sequence of events, so a run that ends Completed after a failed
one still shows the flag (the sample session: exit code 1, then exit code 0);
the call of `runSelectedCode` clears it. -/
theorem runProject_keeps_error_flag (s : EditorState) (cl : Closure) (fetch : Settled Unit)
    (json : Settled ExecResult) :
    ((soloRun cl fetch json s).executionSteps.failed = false →
      (soloRun cl fetch json s).executionSteps.completed = true ∧
      (soloRun cl fetch json s).error = s.error) ∧
    (s.error = true → (soloRun cl fetch json s).error = true) ∧
    (∀ events, s.error = true → (run s events).error = true) ∧
    (∀ selectedCode data, (runSelectedCode selectedCode data s).error = false) ∧
    (soloRun (currentClosure loaded) (Settled.fulfilled ()) (wellFormed 1 "boom") loaded).error
      = true ∧
    (soloRun (currentClosure loaded) (Settled.fulfilled ()) (wellFormed 0 "ok")
      (soloRun (currentClosure loaded) (Settled.fulfilled ()) (wellFormed 1 "boom") loaded)
      ).executionSteps
      = { compiling := false, running := false, completed := true, failed := false } ∧
    (soloRun (currentClosure loaded) (Settled.fulfilled ()) (wellFormed 0 "ok")
      (soloRun (currentClosure loaded) (Settled.fulfilled ()) (wellFormed 1 "boom") loaded)
      ).error = true := by
  refine ⟨?_, fun h => ?_, fun evs h => error_run evs s h, fun _ _ => rfl,
    by decide, by decide, by decide⟩
  · cases hd : cl.data with
    | none =>
      simp [soloRun, soloEvents, run, step, resume, runProject, afterDelay, afterFetch,
        afterJson, finallyBlock, catchBlock, setPc, hd, modify_append_length]
    | some d =>
      cases fetch with
      | rejected m =>
        simp [soloRun, soloEvents, run, step, resume, runProject, afterDelay, afterFetch,
          afterJson, finallyBlock, catchBlock, setPc, hd, modify_append_length]
      | fulfilled u =>
        cases json with
        | rejected m =>
          simp [soloRun, soloEvents, run, step, resume, runProject, afterDelay, afterFetch,
            afterJson, finallyBlock, catchBlock, setPc, hd, modify_append_length]
        | fulfilled result =>
          rcases result with ⟨_ | ⟨code, _ | output⟩⟩
          · simp [soloRun, soloEvents, run, step, resume, runProject, afterDelay, afterFetch,
              afterJson, finallyBlock, catchBlock, setPc, hd, modify_append_length]
          · by_cases hc : code = some 1 <;>
            simp [soloRun, soloEvents, run, step, resume, runProject, afterDelay, afterFetch,
              afterJson, finallyBlock, catchBlock, setPc, hd, modify_append_length,
              reportExit, hc]
          · by_cases hc : code = some 1 <;>
            simp [soloRun, soloEvents, run, step, resume, runProject, afterDelay, afterFetch,
              afterJson, finallyBlock, catchBlock, setPc, hd, modify_append_length,
              reportExit, hc]
  · have hr : (runProject cl s).error = true := h
    exact error_run _ _ hr

end Editor
